import Mathlib

/-!
Verification of the aiohttp stream machinery.

This file is a shallow embedding of `aiohttp/streams.py` and
`aiohttp/payload.py`.  Bytes are modelled as `List Nat` (the newline byte
`b'\n'` is `10`), the chunk deque of a `StreamReader` as a `List` of chunks
with Python's `_buffer_offset` into the head chunk, and the single pending
read waiter as a `Bool` flag.  A coroutine read is modelled one step at a
time: it either completes with a value, registers the waiter and suspends,
or raises; the value delivered to a woken waiter is recorded as a
`WakeEvent`.  Flow-control classes carry an instrumented `Protocol` that
counts successful `pause_reading()` / `resume_reading()` transport calls.
-/

namespace Aiohttp

/-- Byte strings, as lists of byte values. -/
abbrev Bytes := List Nat

/-- The newline byte, Python's `b'\n'`. -/
def NL : Nat := 10

/-- Value delivered to a pending waiter future when it is woken:
`waiter.set_result b` or `waiter.set_exception e` (exceptions are
identified by a numeric tag). -/
inductive WakeEvent where
  | result (b : Bool)
  | exc (e : Nat)
  deriving DecidableEq, Repr

/-! ## StreamReader state (streams.py, class StreamReader) -/

/-- State of `StreamReader`: `_limit`, `_buffer` (deque of chunks),
`_buffer_size`, `_buffer_offset`, `_eof`, `_waiter` (whether a read
coroutine is currently suspended), `_eof_waiter`, `_exception` and
`total_bytes`.  Sizes are `Int` because Python integers are unbounded and
signed. -/
structure StreamReader where
  limit : Nat
  buffer : List Bytes
  buffer_size : Int
  buffer_offset : Nat
  eof : Bool
  waiter : Bool
  eof_waiter : Bool
  exception : Option Nat
  total_bytes : Int
  deriving DecidableEq, Repr

/-- `StreamReader.__init__(limit)`. -/
def StreamReader.init (limit : Nat) : StreamReader :=
  { limit := limit, buffer := [], buffer_size := 0, buffer_offset := 0,
    eof := false, waiter := false, eof_waiter := false, exception := none,
    total_bytes := 0 }

/-- The bytes currently buffered, in order: the concatenation of the chunk
deque with the head offset already consumed. -/
def StreamReader.contents (s : StreamReader) : Bytes :=
  s.buffer.flatten.drop s.buffer_offset

/-- Invariant maintained by every `StreamReader` operation: `_buffer_size`
counts the remaining bytes, every chunk in the deque is non-empty
(`feed_data`/`unread_data` drop empty inputs), and `_buffer_offset` points
strictly inside the head chunk (it is `0` when the deque is empty). -/
def StreamReader.WF (s : StreamReader) : Prop :=
  s.buffer_size = (s.buffer.flatten.length : Int) - s.buffer_offset
  ∧ (∀ c ∈ s.buffer, c ≠ [])
  ∧ (s.buffer = [] → s.buffer_offset = 0)
  ∧ (∀ c r, s.buffer = c :: r → s.buffer_offset < c.length)

/-- The fields a consumer read never modifies. -/
def SameMeta (s t : StreamReader) : Prop :=
  t.limit = s.limit ∧ t.eof = s.eof ∧ t.waiter = s.waiter
  ∧ t.eof_waiter = s.eof_waiter ∧ t.exception = s.exception
  ∧ t.total_bytes = s.total_bytes

/-! ## Producer side -/

/-- `StreamReader.feed_data(data)`.  The `assert not self._eof` failure is
returned as `.error ()`; on success the new state is paired with the value
delivered to a pending waiter, if any. -/
def StreamReader.feed_data (s : StreamReader) (data : Bytes) :
    Except Unit (StreamReader × Option WakeEvent) :=
  if s.eof then .error ()
  else if data = [] then .ok (s, none)
  else
    let s' := { s with buffer := s.buffer ++ [data],
                       buffer_size := s.buffer_size + data.length,
                       total_bytes := s.total_bytes + data.length }
    if s.waiter then .ok ({ s' with waiter := false }, some (.result false))
    else .ok (s', none)

/-- `StreamReader.feed_eof()`: sets `_eof` and wakes the read waiter and the
eof waiter (each with `set_result(True)`). -/
def StreamReader.feed_eof (s : StreamReader) : StreamReader × List WakeEvent :=
  ({ s with eof := true, waiter := false, eof_waiter := false },
   (if s.waiter then [WakeEvent.result true] else [])
     ++ (if s.eof_waiter then [WakeEvent.result true] else []))

/-- `StreamReader.set_exception(exc)`: stores the exception and wakes the
read waiter and the eof waiter with it. -/
def StreamReader.set_exception (s : StreamReader) (e : Nat) :
    StreamReader × List WakeEvent :=
  ({ s with exception := some e, waiter := false, eof_waiter := false },
   (if s.waiter then [WakeEvent.exc e] else [])
     ++ (if s.eof_waiter then [WakeEvent.exc e] else []))

/-- `StreamReader.is_eof()`. -/
def StreamReader.is_eof (s : StreamReader) : Bool := s.eof

/-- `StreamReader.at_eof()`: buffer empty and `feed_eof` was called. -/
def StreamReader.at_eof (s : StreamReader) : Bool := s.eof && s.buffer.isEmpty

/-- `StreamReader.unread_data(data)`: rolls data back onto the buffer head.
An empty argument returns immediately; otherwise a non-zero head offset is
first materialised (`self._buffer[0] = self._buffer[0][offset:]`) and the
data is pushed with `appendleft`.  (When the offset is non-zero the deque is
necessarily non-empty; the `[]` case of the inner match cannot be reached on
well-formed states.) -/
def StreamReader.unread_data (s : StreamReader) (data : Bytes) : StreamReader :=
  if data = [] then s
  else
    let s1 :=
      if s.buffer_offset ≠ 0 then
        { s with buffer := match s.buffer with
                           | [] => []
                           | f :: r => f.drop s.buffer_offset :: r,
                 buffer_offset := 0 }
      else s
    { s1 with buffer := data :: s1.buffer,
              buffer_size := s1.buffer_size + data.length }

/-! ## Consumer side: the non-suspending buffer slicing -/

/-- `StreamReader._read_nowait_chunk(n)`: slice up to `n` bytes (or, when
`n = -1`, everything remaining) out of the head chunk.  The Python code
indexes `self._buffer[0]` unconditionally; callers only invoke it with a
non-empty deque, so the `[]` case is a dead branch returning the state
unchanged. -/
def StreamReader.read_nowait_chunk (s : StreamReader) (n : Int) :
    Bytes × StreamReader :=
  match s.buffer with
  | [] => ([], s)
  | first :: rest =>
    let offset := s.buffer_offset
    if n ≠ -1 ∧ (first.length : Int) - offset > n then
      -- data = first_buffer[offset:offset + n]; only the offset advances
      let data := (first.drop offset).take n.toNat
      (data, { s with buffer_offset := offset + n.toNat,
                      buffer_size := s.buffer_size - data.length })
    else if s.buffer_offset ≠ 0 then
      -- pop the head chunk, taking its remainder past the offset
      let data := first.drop offset
      (data, { s with buffer := rest, buffer_offset := 0,
                      buffer_size := s.buffer_size - data.length })
    else
      (first, { s with buffer := rest,
                       buffer_size := s.buffer_size - first.length })

/-- Loop body of `StreamReader._read_nowait(n)`: collect chunks while the
buffer is non-empty, stopping early once exactly `n` bytes were taken
(`n = -1` drains everything).  The fuel argument only bounds the recursion;
`buffer.length + 1` is always enough, because the only non-popping branch of
`_read_nowait_chunk` delivers exactly the requested `n` bytes and therefore
ends the loop. -/
def StreamReader.read_nowait_go :
    Nat → StreamReader → Int → List Bytes × StreamReader
  | 0, s, _ => ([], s)
  | fuel + 1, s, n =>
    if s.buffer = [] then ([], s)
    else
      let p := s.read_nowait_chunk n
      if n ≠ -1 then
        if n - p.1.length = 0 then ([p.1], p.2)
        else
          let q := StreamReader.read_nowait_go fuel p.2 (n - p.1.length)
          (p.1 :: q.1, q.2)
      else
        let q := StreamReader.read_nowait_go fuel p.2 n
        (p.1 :: q.1, q.2)

/-- `StreamReader._read_nowait(n)`: the chunk loop followed by the
`b''.join(chunks)` concatenation. -/
def StreamReader.read_nowait (s : StreamReader) (n : Int) :
    Bytes × StreamReader :=
  let q := StreamReader.read_nowait_go (s.buffer.length + 1) s n
  (q.1.flatten, q.2)

/-! ## Consumer side: the read coroutines -/

/-- One-step outcome of a read coroutine over a state of type `σ`:
it completed with bytes, it registered the waiter and suspended
(`yield from self._wait(...)`), `_wait` raised its `RuntimeError` because a
waiter already exists (`usage`), the stored exception was re-raised, the
`ValueError('Line is too long')` of `readline`, or the
`asyncio.IncompleteReadError(part, expected)` of `readexactly`. -/
inductive ROut (σ : Type) where
  | done (val : Bytes) (s : σ)
  | suspended (s : σ)
  | usage (s : σ)
  | raised (e : Nat) (s : σ)
  | lineTooLong (s : σ)
  | incomplete (part : Bytes) (expected : Nat) (s : σ)
  deriving DecidableEq, Repr

/-- The suspension step shared by the reads, `StreamReader._wait(func_name)`:
raise `RuntimeError` if a waiter is already pending, otherwise install the
waiter and suspend.  (The `finally: self._waiter = None` of `_wait`, together
with the wake in `feed_data`/`feed_eof`, guarantees the waiter flag is clear
again when the read resumes.) -/
def StreamReader.wait_step (s : StreamReader) : ROut StreamReader :=
  if s.waiter then .usage s else .suspended { s with waiter := true }

/-- `StreamReader.readany()`: re-raise a stored exception, suspend if the
buffer is empty before EOF, otherwise return `self._read_nowait(-1)`. -/
def StreamReader.readany (s : StreamReader) : ROut StreamReader :=
  match s.exception with
  | some e => .raised e s
  | none =>
    if s.buffer = [] ∧ s.eof = false then s.wait_step
    else
      let p := s.read_nowait (-1)
      .done p.1 p.2

/-- Loop of the `n < 0` branch of `StreamReader.read`: call `readany` until
it returns an empty block.  The first successful `readany` drains the whole
buffer, so the loop completes or suspends within two iterations; fuel `2` is
exact. -/
def StreamReader.read_neg_loop :
    Nat → StreamReader → List Bytes → ROut StreamReader
  | 0, s, acc => .done acc.reverse.flatten s
  | fuel + 1, s, acc =>
    match s.readany with
    | .done b s' =>
      if b = [] then .done acc.reverse.flatten s'
      else StreamReader.read_neg_loop fuel s' (b :: acc)
    | out => out

/-- `StreamReader.read(n)`: re-raise a stored exception; `n == 0` returns
empty at once; `n < 0` loops `readany` until EOF; `n > 0` suspends once if
the buffer is empty before EOF and then returns `self._read_nowait(n)`.
(The `__debug__` block only logs a warning and is omitted.) -/
def StreamReader.read (s : StreamReader) (n : Int) : ROut StreamReader :=
  match s.exception with
  | some e => .raised e s
  | none =>
    if n = 0 then .done [] s
    else if n < 0 then StreamReader.read_neg_loop 2 s []
    else
      if s.buffer = [] ∧ s.eof = false then s.wait_step
      else
        let p := s.read_nowait n
        .done p.1 p.2

/-- Resumption of a suspended `read(n)` with `n > 0`: after the waiter fires
the coroutine just returns `self._read_nowait(n)` on the state it wakes to. -/
def StreamReader.read_resume (s : StreamReader) (n : Int) :
    Bytes × StreamReader :=
  s.read_nowait n

/-- Loop of `StreamReader.readexactly(n)`: `read(n)` until `n` bytes were
collected; an empty block means EOF and raises
`IncompleteReadError(partial, len(partial) + n)`.  Every iteration but the
last consumes at least one byte, so fuel `n.toNat + 1` is sufficient. -/
def StreamReader.readexactly_loop :
    Nat → StreamReader → Int → List Bytes → ROut StreamReader
  | 0, s, _, acc => .done acc.reverse.flatten s
  | fuel + 1, s, n, acc =>
    if n > 0 then
      match s.read n with
      | .done b s' =>
        if b = [] then
          .incomplete acc.reverse.flatten (acc.reverse.flatten.length + n.toNat) s'
        else StreamReader.readexactly_loop fuel s' (n - b.length) (b :: acc)
      | out => out
    else .done acc.reverse.flatten s

/-- `StreamReader.readexactly(n)`. -/
def StreamReader.readexactly (s : StreamReader) (n : Int) : ROut StreamReader :=
  match s.exception with
  | some e => .raised e s
  | none => StreamReader.readexactly_loop (n.toNat + 1) s n []

/-- `StreamReader.read_nowait(n)` (the public method): re-raise a stored
exception, raise `RuntimeError` while a read coroutine is waiting, otherwise
return `self._read_nowait(n)` without ever suspending. -/
def StreamReader.read_nowait_checked (s : StreamReader) (n : Int) :
    ROut StreamReader :=
  match s.exception with
  | some e => .raised e s
  | none =>
    if s.waiter then .usage s
    else
      let p := s.read_nowait n
      .done p.1 p.2

/-! ## readline -/

/-- Index of the first newline byte of a chunk, Python's
`buf.find(b'\n')` restricted to a suffix by the caller. -/
def findNL : Bytes → Option Nat
  | [] => none
  | b :: bs => if b = NL then some 0 else (findNL bs).map (· + 1)

/-- Inner loop of `StreamReader.readline`: as long as chunks are buffered
and no newline was seen, compute
`ichar = self._buffer[0].find(b'\n', offset) + 1`, slice the head chunk up
to the newline (or entirely), append it to the accumulated line, flip
`not_enough` when a newline was found, and raise
`ValueError('Line is too long')` as soon as the accumulated size exceeds the
limit (returned as `.error` with the state at the raise).  Fuel
`buffer.length + 1` is enough: every continuing iteration pops a chunk. -/
def StreamReader.readline_inner :
    Nat → StreamReader → List Bytes → Nat → Bool →
    Except StreamReader (StreamReader × List Bytes × Nat × Bool)
  | 0, s, lineRev, size, ne => .ok (s, lineRev, size, ne)
  | fuel + 1, s, lineRev, size, ne =>
    match s.buffer with
    | [] => .ok (s, lineRev, size, ne)
    | first :: _ =>
      if ne = false then .ok (s, lineRev, size, ne)
      else
        let ichar : Nat :=
          match findNL (first.drop s.buffer_offset) with
          | some i => i + s.buffer_offset + 1
          | none => 0
        let p := s.read_nowait_chunk
          (if ichar ≠ 0 then (ichar : Int) - s.buffer_offset else -1)
        let size' := size + p.1.length
        let ne' := if ichar ≠ 0 then false else ne
        if size' > s.limit then .error p.2
        else StreamReader.readline_inner fuel p.2 (p.1 :: lineRev) size' ne'

/-- `StreamReader.readline()`: re-raise a stored exception, run the inner
chunk loop, and then either return the accumulated line (newline found, or
EOF reached) or suspend waiting for more data. -/
def StreamReader.readline (s : StreamReader) : ROut StreamReader :=
  match s.exception with
  | some e => .raised e s
  | none =>
    match StreamReader.readline_inner (s.buffer.length + 1) s [] 0 true with
    | .error sErr => .lineTooLong sErr
    | .ok (s', lineRev, _, ne) =>
      if s'.eof then .done lineRev.reverse.flatten s'
      else if ne then s'.wait_step
      else .done lineRev.reverse.flatten s'

/-! ## DataQueue (streams.py, class DataQueue) -/

/-- State of `DataQueue`: `_eof`, `_waiter`, `_exception`, `_size` and the
deque of `(data, size)` pairs.  Items are identified by numeric tags. -/
structure DataQueue where
  eof : Bool
  waiter : Bool
  exception : Option Nat
  size : Int
  buffer : List (Nat × Int)
  deriving DecidableEq, Repr

/-- `DataQueue.__init__`. -/
def DataQueue.init : DataQueue :=
  { eof := false, waiter := false, exception := none, size := 0, buffer := [] }

/-- `DataQueue.feed_data(data, size)`: unconditionally grows the size
accounting and appends the item — there is no EOF check — then wakes a
pending waiter with `set_result(True)`. -/
def DataQueue.feed_data (q : DataQueue) (data : Nat) (size : Int) :
    DataQueue × Option WakeEvent :=
  let q' := { q with size := q.size + size, buffer := q.buffer ++ [(data, size)] }
  if q.waiter then ({ q' with waiter := false }, some (.result true))
  else (q', none)

/-- `DataQueue.feed_eof()`: wakes a pending waiter with `set_result(False)`. -/
def DataQueue.feed_eof (q : DataQueue) : DataQueue × Option WakeEvent :=
  ({ q with eof := true, waiter := false },
   if q.waiter then some (.result false) else none)

/-- `DataQueue.set_exception(exc)`: stores the exception and wakes a pending
waiter with it. -/
def DataQueue.set_exception (q : DataQueue) (e : Nat) :
    DataQueue × Option WakeEvent :=
  ({ q with exception := some e, waiter := false },
   if q.waiter then some (.exc e) else none)

/-- One-step outcome of `DataQueue.read()` over a state of type `σ`: an
item was popped, the read suspended, the `assert not self._waiter` failed
(`usage`), the stored exception was raised, or `EofStream` was raised. -/
inductive QOut (σ : Type) where
  | item (d : Nat) (s : σ)
  | suspended (s : σ)
  | usage (s : σ)
  | raised (e : Nat) (s : σ)
  | eofStream (s : σ)
  deriving DecidableEq, Repr

/-- `DataQueue.read()`: when the buffer is empty before EOF, raise a stored
exception, assert no waiter is pending, and suspend; otherwise pop the
oldest `(data, size)` pair, or — once empty at EOF — raise the stored
exception if any, else `EofStream`.  Note that a buffered item is returned
even when an exception is stored. -/
def DataQueue.read (q : DataQueue) : QOut DataQueue :=
  if q.buffer = [] ∧ q.eof = false then
    match q.exception with
    | some e => .raised e q
    | none =>
      if q.waiter then .usage q else .suspended { q with waiter := true }
  else
    match q.buffer with
    | (d, sz) :: rest => .item d { q with buffer := rest, size := q.size - sz }
    | [] =>
      match q.exception with
      | some e => .raised e q
      | none => .eofStream q

/-! ## Flow control (streams.py, maybe_resume / FlowControlStreamReader /
FlowControlDataQueue) -/

/-- The protocol/transport pair seen by the flow-control classes:
`protocol._reading_paused`, whether the transport implements
`pause_reading()`/`resume_reading()` (otherwise those calls raise
`AttributeError`/`NotImplementedError`, which are swallowed), and counters
instrumenting the successful transport calls. -/
structure Protocol where
  reading_paused : Bool
  supports : Bool
  pause_calls : Nat
  resume_calls : Nat
  deriving DecidableEq, Repr

/-- Shared try/except pattern: `transport.pause_reading()` followed by
`self._protocol._reading_paused = True` on success; a raising transport
leaves everything unchanged. -/
def Protocol.try_pause (p : Protocol) : Protocol :=
  if p.supports then
    { p with pause_calls := p.pause_calls + 1, reading_paused := true }
  else p

/-- Shared try/except pattern: `transport.resume_reading()` followed by
`self._protocol._reading_paused = False` on success. -/
def Protocol.try_resume (p : Protocol) : Protocol :=
  if p.supports then
    { p with resume_calls := p.resume_calls + 1, reading_paused := false }
  else p

/-- State of `FlowControlStreamReader`: the inherited `StreamReader` state
plus `_protocol`, `_b_limit = limit * 2` and `_allow_pause`. -/
structure FCStreamReader where
  inner : StreamReader
  protocol : Protocol
  b_limit : Int
  allow_pause : Bool
  deriving DecidableEq, Repr

/-- `FlowControlStreamReader.__init__(protocol, limit)`: fresh reader state,
`_b_limit = limit * 2`, and if the transport reports already paused, resume
it and — only on success — record permission to pause it again later. -/
def FCStreamReader.init (p : Protocol) (limit : Nat) : FCStreamReader :=
  let base : FCStreamReader :=
    { inner := StreamReader.init limit, protocol := p,
      b_limit := (limit : Int) * 2, allow_pause := false }
  if p.reading_paused then
    if p.supports then
      { base with protocol := p.try_resume, allow_pause := true }
    else base
  else base

/-- `FlowControlStreamReader.overflow`. -/
def FCStreamReader.overflow (s : FCStreamReader) : Bool :=
  s.inner.buffer_size > s.b_limit

/-- `FlowControlStreamReader._check_buffer_size()`: resume a paused
transport once the buffer drops strictly below `_b_limit`; pause a
non-paused transport once the buffer exceeds `_b_limit` strictly. -/
def FCStreamReader.check_buffer_size (s : FCStreamReader) : FCStreamReader :=
  if s.protocol.reading_paused then
    if s.inner.buffer_size < s.b_limit then
      { s with protocol := s.protocol.try_resume }
    else s
  else
    if s.inner.buffer_size > s.b_limit then
      { s with protocol := s.protocol.try_pause }
    else s

/-- `FlowControlStreamReader.feed_data(data, size)`: remember whether a
waiter was pending, delegate to `StreamReader.feed_data`, and pause the
transport when pausing is allowed, the transport is not already paused, no
waiter was pending, and the buffer now exceeds `_b_limit`. -/
def FCStreamReader.feed_data (s : FCStreamReader) (data : Bytes) :
    Except Unit (FCStreamReader × Option WakeEvent) :=
  let has_waiter := s.inner.waiter
  match s.inner.feed_data data with
  | .error e => .error e
  | .ok (inner', ev) =>
    let s' := { s with inner := inner' }
    if s.allow_pause ∧ s.protocol.reading_paused = false ∧ has_waiter = false
        ∧ inner'.buffer_size > s.b_limit then
      .ok ({ s' with protocol := s.protocol.try_pause }, ev)
    else .ok (s', ev)

/-- The `maybe_resume` wrapper: run the wrapped read; when (and only when)
it completes normally, run `_check_buffer_size()` afterwards.  A raising or
suspending read leaves the flow-control state untouched. -/
def FCStreamReader.wrap (s : FCStreamReader) (out : ROut StreamReader) :
    ROut FCStreamReader :=
  match out with
  | .done b i => .done b (FCStreamReader.check_buffer_size { s with inner := i })
  | .suspended i => .suspended { s with inner := i }
  | .usage i => .usage { s with inner := i }
  | .raised e i => .raised e { s with inner := i }
  | .lineTooLong i => .lineTooLong { s with inner := i }
  | .incomplete part expected i => .incomplete part expected { s with inner := i }

/-- `FlowControlStreamReader.read(n)` (`maybe_resume`-wrapped). -/
def FCStreamReader.read (s : FCStreamReader) (n : Int) : ROut FCStreamReader :=
  s.wrap (s.inner.read n)

/-- `FlowControlStreamReader.readline()` (`maybe_resume`-wrapped). -/
def FCStreamReader.readline (s : FCStreamReader) : ROut FCStreamReader :=
  s.wrap s.inner.readline

/-- `FlowControlStreamReader.readany()` (`maybe_resume`-wrapped). -/
def FCStreamReader.readany (s : FCStreamReader) : ROut FCStreamReader :=
  s.wrap s.inner.readany

/-- `FlowControlStreamReader.readexactly(n)` (`maybe_resume`-wrapped). -/
def FCStreamReader.readexactly (s : FCStreamReader) (n : Int) :
    ROut FCStreamReader :=
  s.wrap (s.inner.readexactly n)

/-- `FlowControlStreamReader.read_nowait(n)` (`maybe_resume`-wrapped). -/
def FCStreamReader.read_nowait_checked (s : FCStreamReader) (n : Int) :
    ROut FCStreamReader :=
  s.wrap (s.inner.read_nowait_checked n)

/-- State of `FlowControlDataQueue`: the inherited `DataQueue` state plus
`_protocol`, `_limit = limit * 2` and `_allow_pause`. -/
structure FCDataQueue where
  inner : DataQueue
  protocol : Protocol
  limit : Int
  allow_pause : Bool
  deriving DecidableEq, Repr

/-- `FlowControlDataQueue.__init__(protocol, limit)`. -/
def FCDataQueue.init (p : Protocol) (limit : Nat) : FCDataQueue :=
  let base : FCDataQueue :=
    { inner := DataQueue.init, protocol := p,
      limit := (limit : Int) * 2, allow_pause := false }
  if p.reading_paused then
    if p.supports then
      { base with protocol := p.try_resume, allow_pause := true }
    else base
  else base

/-- `FlowControlDataQueue.feed_data(data, size)`: delegate, then pause the
transport when pausing is allowed, it is not already paused, no waiter was
pending, and the summed declared size now exceeds `_limit`. -/
def FCDataQueue.feed_data (s : FCDataQueue) (data : Nat) (size : Int) :
    FCDataQueue × Option WakeEvent :=
  let has_waiter := s.inner.waiter
  let p := s.inner.feed_data data size
  let s' := { s with inner := p.1 }
  if s.allow_pause ∧ s.protocol.reading_paused = false ∧ has_waiter = false
      ∧ p.1.size > s.limit then
    ({ s' with protocol := s.protocol.try_pause }, p.2)
  else (s', p.2)

/-- The inline pause/resume block at the end of
`FlowControlDataQueue.read`, mirroring `_check_buffer_size` on `_size` and
`_limit`. -/
def FCDataQueue.check_size (s : FCDataQueue) : FCDataQueue :=
  if s.protocol.reading_paused then
    if s.inner.size < s.limit then { s with protocol := s.protocol.try_resume }
    else s
  else
    if s.inner.size > s.limit then { s with protocol := s.protocol.try_pause }
    else s

/-- `FlowControlDataQueue.read()`: delegate to `DataQueue.read`; only when
an item is returned does the pause/resume check run (an `EofStream` or other
raise propagates before reaching it). -/
def FCDataQueue.read (s : FCDataQueue) : QOut FCDataQueue :=
  match s.inner.read with
  | .item d i => .item d (FCDataQueue.check_size { s with inner := i })
  | .suspended i => .suspended { s with inner := i }
  | .usage i => .usage { s with inner := i }
  | .raised e i => .raised e { s with inner := i }
  | .eofStream i => .eofStream { s with inner := i }

/-! ## StreamWriter (streams.py, class StreamWriter) -/

/-- Which object a writer callback is invoked with: `acquire` passes
`self.transport`, `release` passes `self` (the `StreamWriter`). -/
inductive CbArg where
  | transport
  | writer
  deriving DecidableEq, Repr

/-- The lease-relevant state of `StreamWriter`: the `available` flag and the
FIFO list of queued callbacks (identified by numeric tags). -/
structure StreamWriter where
  available : Bool
  waiters : List Nat
  deriving DecidableEq, Repr

/-- `StreamWriter.acquire(cb)`: if available, take the lease and invoke the
callback immediately with the transport; otherwise append it to the FIFO
queue.  The returned event names the callback invoked, if any. -/
def StreamWriter.acquire (w : StreamWriter) (cb : Nat) :
    StreamWriter × Option (Nat × CbArg) :=
  if w.available then ({ w with available := false }, some (cb, .transport))
  else ({ w with waiters := w.waiters ++ [cb] }, none)

/-- `StreamWriter.release()`: if callbacks are queued, keep the lease taken,
pop the oldest and invoke it with `self` (the writer, not the transport);
otherwise mark the writer available. -/
def StreamWriter.release (w : StreamWriter) :
    StreamWriter × Option (Nat × CbArg) :=
  match w.waiters with
  | [] => ({ w with available := true }, none)
  | cb :: rest => ({ w with available := false, waiters := rest },
                   some (cb, .writer))

/-! ## Payload registry (payload.py) -/

/-- The Python classes taking part in payload dispatch.  The `io` suffix
classes follow the standard-library hierarchy (`StringIO <: TextIOBase
<: IOBase`, `BytesIO`/`BufferedReader`/`BufferedRandom <: BufferedIOBase
<: IOBase`); `intCls` stands for any unregistered type. -/
inductive PyClass where
  | bytes
  | bytearray
  | memoryview
  | str
  | stringIOCls
  | textIOBase
  | bytesIOCls
  | bufferedReader
  | bufferedRandom
  | bufferedIOBase
  | ioBase
  | asyncioStreamReader
  | streamReader
  | dataQueue
  | chunksQueue
  | payload
  | bytesPayloadCls
  | stringPayloadCls
  | intCls
  deriving DecidableEq, Repr

/-- The strict ancestors of each class (reflexivity is added by
`isSubclassOf`), per the Python class hierarchy. -/
def PyClass.ancestors : PyClass → List PyClass
  | .stringIOCls => [.textIOBase, .ioBase]
  | .textIOBase => [.ioBase]
  | .bytesIOCls => [.bufferedIOBase, .ioBase]
  | .bufferedReader => [.bufferedIOBase, .ioBase]
  | .bufferedRandom => [.bufferedIOBase, .ioBase]
  | .bufferedIOBase => [.ioBase]
  | .chunksQueue => [.dataQueue]
  | .bytesPayloadCls => [.payload]
  | .stringPayloadCls => [.bytesPayloadCls, .payload]
  | _ => []

/-- Python's `isinstance(x, t)` on the class of `x`. -/
def PyClass.isSubclassOf (c d : PyClass) : Bool :=
  c = d || d ∈ c.ancestors

/-- Tags for the registered payload constructors. -/
inductive PayloadCtor where
  | bytesPayload
  | stringPayload
  | stringIOPayload
  | textIOPayload
  | bytesIOPayload
  | bufferedReaderPayload
  | ioBasePayload
  | streamReaderPayload
  | dataQueuePayload
  deriving DecidableEq, Repr

/-- The module-level `PAYLOAD_REGISTRY` registrations, in registration
order; an `isinstance` second argument that is a tuple becomes a list of
classes. -/
def PAYLOAD_REGISTRY : List (PayloadCtor × List PyClass) :=
  [(.bytesPayload, [.bytes, .bytearray, .memoryview]),
   (.stringPayload, [.str]),
   (.stringIOPayload, [.stringIOCls]),
   (.textIOPayload, [.textIOBase]),
   (.bytesIOPayload, [.bytesIOCls]),
   (.bufferedReaderPayload, [.bufferedReader, .bufferedRandom]),
   (.ioBasePayload, [.ioBase]),
   (.streamReaderPayload, [.asyncioStreamReader, .streamReader]),
   (.dataQueuePayload, [.dataQueue])]

/-- Result of `PayloadRegistry.get`: the source returned unchanged because
it already is a `Payload`, or the adapter built by a registered
constructor. -/
inductive GetResult where
  | unchanged
  | adapter (ctor : PayloadCtor)
  deriving DecidableEq, Repr

/-- Whether `isinstance(data, type)` holds for one registry entry. -/
def matchesEntry (cls : PyClass) (entry : PayloadCtor × List PyClass) : Bool :=
  entry.2.any (fun t => cls.isSubclassOf t)

/-- The `for ctor, type in self._registry` loop of `PayloadRegistry.get`:
first registered match wins, `LookupError` (as `.error ()`) when nothing
matches. -/
def registryLoop (cls : PyClass) :
    List (PayloadCtor × List PyClass) → Except Unit GetResult
  | [] => .error ()
  | entry :: rest =>
    if matchesEntry cls entry then .ok (.adapter entry.1)
    else registryLoop cls rest

/-- `PayloadRegistry.get(data, ...)` restricted to the type dispatch: a
`Payload` instance is returned unchanged, otherwise the registry is scanned
in registration order. -/
def PayloadRegistry.get (registry : List (PayloadCtor × List PyClass))
    (cls : PyClass) : Except Unit GetResult :=
  if cls.isSubclassOf .payload then .ok .unchanged
  else registryLoop cls registry

/-- Modelled from the spec: `parse_mimetype` lives in `aiohttp/helpers.py`,
which is not among the sources; of its result only the `charset` parameter
is consulted by `StringPayload`, so a content type is modelled by that
optional parameter alone. -/
structure ContentType where
  charset : Option String
  deriving DecidableEq, Repr

/-- The default `content_type='text/plain; charset=utf-8'` argument of
`StringPayload.__init__`, whose mimetype parameters carry
`charset=utf-8`. -/
def stringPayloadDefaultContentType : ContentType := ⟨some "utf-8"⟩

/-- The charset `StringPayload.__init__` encodes its value with:
`params.get('charset', 'utf-8')`. -/
def StringPayload.charsetOf (ct : ContentType) : String :=
  ct.charset.getD "utf-8"

/-! ## Derived drivers and specification functions used by the claims -/

/-- Feed a list of chunks in order (`feed_data(c1); ...; feed_data(cn)`),
failing if any feed hits the EOF assertion. -/
def feedList (s : StreamReader) : List Bytes → Except Unit StreamReader
  | [] => .ok s
  | c :: rest =>
    match s.feed_data c with
    | .error e => .error e
    | .ok (s', _) => feedList s' rest

/-- Repeated `readany()` calls, concatenating the results until a call
returns the empty byte string; `none` when a call suspends or raises, or
the fuel runs out. -/
def drainReadany : Nat → StreamReader → Option Bytes
  | 0, _ => none
  | fuel + 1, s =>
    match s.readany with
    | .done b s' =>
      if b = [] then some []
      else (drainReadany fuel s').map (b ++ ·)
    | _ => none

/-- Repeated `read(n)` calls, concatenating the results until a call
returns the empty byte string. -/
def drainRead (n : Int) : Nat → StreamReader → Option Bytes
  | 0, _ => none
  | fuel + 1, s =>
    match s.read n with
    | .done b s' =>
      if b = [] then some []
      else (drainRead n fuel s').map (b ++ ·)
    | _ => none

/-- Length of the first line of a byte string: up to and including the
first newline, or the whole string when none occurs. -/
def lineLen : Bytes → Nat
  | [] => 0
  | b :: bs => if b = NL then 1 else lineLen bs + 1

/-- Whether a byte string contains a newline. -/
def hasNL : Bytes → Bool
  | [] => false
  | b :: bs => b = NL || hasNL bs

/-! ## Lemmas about the buffer slicing -/

theorem read_nowait_chunk_take (s : StreamReader) (f : Bytes) (r : List Bytes)
    (n : Int) (hb : s.buffer = f :: r) (hn : n ≠ -1)
    (hgt : (f.length : Int) - s.buffer_offset > n) :
    s.read_nowait_chunk n =
      ((f.drop s.buffer_offset).take n.toNat,
       { s with buffer_offset := s.buffer_offset + n.toNat,
                buffer_size :=
                  s.buffer_size - ((f.drop s.buffer_offset).take n.toNat).length }) := by
  unfold StreamReader.read_nowait_chunk
  rw [hb]
  simp only [gt_iff_lt]
  rw [if_pos ⟨hn, hgt⟩]

theorem read_nowait_chunk_pop (s : StreamReader) (f : Bytes) (r : List Bytes)
    (n : Int) (hb : s.buffer = f :: r)
    (hle : n = -1 ∨ (f.length : Int) - s.buffer_offset ≤ n) :
    s.read_nowait_chunk n =
      (f.drop s.buffer_offset,
       { s with buffer := r, buffer_offset := 0,
                buffer_size :=
                  s.buffer_size - (f.drop s.buffer_offset).length }) := by
  unfold StreamReader.read_nowait_chunk
  rw [hb]
  have hcond : ¬ (n ≠ -1 ∧ (f.length : Int) - s.buffer_offset > n) := by
    rcases hle with h | h
    · simp [h]
    · intro hc; omega
  simp only [gt_iff_lt]
  rw [if_neg hcond]
  by_cases hoff : s.buffer_offset ≠ 0
  · rw [if_pos hoff]
  · rw [if_neg hoff]
    push_neg at hoff
    cases s
    simp_all

theorem read_nowait_go_neg (fuel : Nat) :
    ∀ s : StreamReader, s.buffer.length < fuel → s.WF →
    (StreamReader.read_nowait_go fuel s (-1)).1.flatten = s.contents
    ∧ (StreamReader.read_nowait_go fuel s (-1)).2.buffer = []
    ∧ (StreamReader.read_nowait_go fuel s (-1)).2.buffer_offset = 0
    ∧ (StreamReader.read_nowait_go fuel s (-1)).2.buffer_size = 0
    ∧ SameMeta s (StreamReader.read_nowait_go fuel s (-1)).2 := by
  induction fuel with
  | zero => intro s h _; omega
  | succ fuel ih =>
    intro s hlen hwf
    obtain ⟨hsz, hne, hoff0, hoffc⟩ := hwf
    match hb : s.buffer with
    | [] =>
      have hstep : StreamReader.read_nowait_go (fuel + 1) s (-1) = ([], s) := by
        simp only [StreamReader.read_nowait_go]
        rw [if_pos hb]
      rw [hstep]
      have ho := hoff0 hb
      have hz : s.buffer_size = 0 := by
        rw [hb] at hsz
        simp at hsz
        omega
      exact ⟨by simp [StreamReader.contents, hb], hb, ho, hz,
             rfl, rfl, rfl, rfl, rfl, rfl⟩
    | f :: r =>
      have hofflt : s.buffer_offset < f.length := hoffc f r hb
      have hchunk := read_nowait_chunk_pop s f r (-1) hb (Or.inl rfl)
      set s' : StreamReader :=
        { s with buffer := r, buffer_offset := 0,
                 buffer_size := s.buffer_size - (f.drop s.buffer_offset).length }
        with hs'
      have hwf' : s'.WF := by
        refine ⟨?_, ?_, ?_, ?_⟩
        · simp only [hs', List.length_drop]
          rw [hb] at hsz
          simp only [List.flatten_cons, List.length_append] at hsz
          have : s.buffer_offset ≤ f.length := le_of_lt hofflt
          push_cast [this]
          omega
        · intro c hc
          exact hne c (by rw [hb]; exact List.mem_cons_of_mem _ (by simpa [hs'] using hc))
        · intro _; simp [hs']
        · intro c r' hr
          simp only [hs'] at hr ⊢
          have : c ≠ [] := hne c (by rw [hb, hr]; simp)
          simpa using List.length_pos.mpr this
      have hlen' : s'.buffer.length < fuel := by
        have : s.buffer.length = r.length + 1 := by rw [hb]; rfl
        simp only [hs']
        omega
      obtain ⟨ih1, ih2, ih3, ih4, ih5⟩ := ih s' hlen' hwf'
      have hstep :
          StreamReader.read_nowait_go (fuel + 1) s (-1) =
            ((f.drop s.buffer_offset) :: (StreamReader.read_nowait_go fuel s' (-1)).1,
             (StreamReader.read_nowait_go fuel s' (-1)).2) := by
        simp only [StreamReader.read_nowait_go]
        rw [if_neg (by rw [hb]; simp)]
        simp only [hchunk, ne_eq, not_true_eq_false, if_false, reduceIte]
      rw [hstep]
      have hcontflat : s.contents = f.drop s.buffer_offset ++ r.flatten := by
        simp only [StreamReader.contents, hb, List.flatten_cons]
        exact List.drop_append_of_le_length (le_of_lt hofflt)
      refine ⟨?_, ih2, ih3, ih4, ?_⟩
      · simp only [List.flatten_cons, ih1]
        have hcont' : s'.contents = r.flatten := by
          simp [StreamReader.contents, hs']
        rw [hcont', hcontflat]
      · obtain ⟨m1, m2, m3, m4, m5, m6⟩ := ih5
        exact ⟨m1, m2, m3, m4, m5, m6⟩
theorem read_nowait_go_pos (fuel : Nat) :
    ∀ (s : StreamReader) (n : Int), s.buffer.length < fuel → s.WF → 1 ≤ n →
    (StreamReader.read_nowait_go fuel s n).1.flatten = s.contents.take n.toNat
    ∧ (StreamReader.read_nowait_go fuel s n).2.contents = s.contents.drop n.toNat
    ∧ (StreamReader.read_nowait_go fuel s n).2.WF
    ∧ SameMeta s (StreamReader.read_nowait_go fuel s n).2 := by
  induction fuel with
  | zero => intro s n h _ _; omega
  | succ fuel ih =>
    intro s n hlen hwf hn
    obtain ⟨hsz, hne, hoff0, hoffc⟩ := hwf
    match hb : s.buffer with
    | [] =>
      have hstep : StreamReader.read_nowait_go (fuel + 1) s n = ([], s) := by
        simp only [StreamReader.read_nowait_go]
        rw [if_pos hb]
      rw [hstep]
      have hcont : s.contents = [] := by simp [StreamReader.contents, hb]
      exact ⟨by simp [hcont], by simp [hcont], ⟨hsz, hne, hoff0, hoffc⟩,
             rfl, rfl, rfl, rfl, rfl, rfl⟩
    | f :: r =>
      have hofflt : s.buffer_offset < f.length := hoffc f r hb
      have hcont : s.contents = f.drop s.buffer_offset ++ r.flatten := by
        simp only [StreamReader.contents, hb, List.flatten_cons]
        exact List.drop_append_of_le_length (le_of_lt hofflt)
      by_cases hgt : (f.length : Int) - s.buffer_offset > n
      · -- the head chunk covers the request: only the offset advances
        have hchunk := read_nowait_chunk_take s f r n hb (by omega) hgt
        have hdlen : ((f.drop s.buffer_offset).take n.toNat).length = n.toNat := by
          simp only [List.length_take, List.length_drop]
          omega
        have hstep :
            StreamReader.read_nowait_go (fuel + 1) s n =
              ([(f.drop s.buffer_offset).take n.toNat],
               { s with buffer_offset := s.buffer_offset + n.toNat,
                        buffer_size := s.buffer_size -
                          ((f.drop s.buffer_offset).take n.toNat).length }) := by
          simp only [StreamReader.read_nowait_go]
          rw [if_neg (by rw [hb]; simp)]
          simp only [hchunk]
          rw [if_pos (by omega), if_pos (by rw [hdlen]; omega)]
        rw [hstep]
        refine ⟨?_, ?_, ⟨?_, ?_, ?_, ?_⟩, rfl, rfl, rfl, rfl, rfl, rfl⟩
        · simp only [List.flatten, List.append_nil]
          rw [hcont, List.take_append_of_le_length]
          simp only [List.length_drop]
          omega
        · show s.buffer.flatten.drop (s.buffer_offset + n.toNat)
            = s.contents.drop n.toNat
          simp only [StreamReader.contents, List.drop_drop]
        · show s.buffer_size - (((f.drop s.buffer_offset).take n.toNat).length : Int)
            = (s.buffer.flatten.length : Int) - ((s.buffer_offset + n.toNat : Nat) : Int)
          rw [hdlen]
          push_cast
          omega
        · show ∀ c ∈ s.buffer, c ≠ []
          exact hne
        · intro h
          have : (f :: r : List Bytes) = [] := hb.symm.trans h
          exact absurd this (by simp)
        · intro c r' hr
          have hfr : (f :: r : List Bytes) = c :: r' := hb.symm.trans hr
          have hc : f = c := by injection hfr
          show s.buffer_offset + n.toNat < c.length
          rw [← hc]
          omega
      · -- the whole remaining head chunk is taken and popped
        have hchunk := read_nowait_chunk_pop s f r n hb (Or.inr (by omega))
        have hdlen : (f.drop s.buffer_offset).length
            = f.length - s.buffer_offset := List.length_drop ..
        have hdpos : 0 < (f.drop s.buffer_offset).length := by
          rw [hdlen]; omega
        set s' : StreamReader :=
          { s with buffer := r, buffer_offset := 0,
                   buffer_size := s.buffer_size - (f.drop s.buffer_offset).length }
          with hs'
        have hwf' : s'.WF := by
          refine ⟨?_, ?_, ?_, ?_⟩
          · simp only [hs', List.length_drop]
            rw [hb] at hsz
            simp only [List.flatten_cons, List.length_append] at hsz
            have : s.buffer_offset ≤ f.length := le_of_lt hofflt
            push_cast [this]
            omega
          · intro c hc
            exact hne c (by rw [hb]; exact List.mem_cons_of_mem _ (by simpa [hs'] using hc))
          · intro _; simp [hs']
          · intro c r' hr
            simp only [hs'] at hr ⊢
            have : c ≠ [] := hne c (by rw [hb, hr]; simp)
            simpa using List.length_pos.mpr this
        have hcont' : s'.contents = r.flatten := by
          simp [StreamReader.contents, hs']
        by_cases hstop : n - ((f.drop s.buffer_offset).length : Int) = 0
        · -- exactly n bytes were delivered; the loop breaks
          have hstep :
              StreamReader.read_nowait_go (fuel + 1) s n =
                ([f.drop s.buffer_offset], s') := by
            simp only [StreamReader.read_nowait_go]
            rw [if_neg (by rw [hb]; simp)]
            simp only [hchunk]
            rw [if_pos (by omega), if_pos hstop]
          rw [hstep]
          have hnlen : n.toNat = (f.drop s.buffer_offset).length := by omega
          refine ⟨?_, ?_, hwf', rfl, rfl, rfl, rfl, rfl, rfl⟩
          · simp only [List.flatten, List.append_nil]
            rw [hcont, hnlen, List.take_append_of_le_length (le_refl _),
                List.take_length]
          · show s'.contents = s.contents.drop n.toNat
            rw [hcont', hcont, hnlen,
                List.drop_append_of_le_length (le_refl _), List.drop_length,
                List.nil_append]
        · -- fewer than n bytes so far; the loop continues on the tail
          have hlen' : s'.buffer.length < fuel := by
            have : s.buffer.length = r.length + 1 := by rw [hb]; rfl
            simp only [hs']
            omega
          have hn' : 1 ≤ n - ((f.drop s.buffer_offset).length : Int) := by omega
          obtain ⟨ih1, ih2, ih3, ih4⟩ :=
            ih s' (n - (f.drop s.buffer_offset).length) hlen' hwf' hn'
          have hstep :
              StreamReader.read_nowait_go (fuel + 1) s n =
                ((f.drop s.buffer_offset) ::
                   (StreamReader.read_nowait_go fuel s'
                     (n - (f.drop s.buffer_offset).length)).1,
                 (StreamReader.read_nowait_go fuel s'
                     (n - (f.drop s.buffer_offset).length)).2) := by
            simp only [StreamReader.read_nowait_go]
            rw [if_neg (by rw [hb]; simp)]
            simp only [hchunk]
            rw [if_pos (by omega), if_neg hstop]
          rw [hstep]
          have hLle : ((f.drop s.buffer_offset).length : Int) ≤ n := by
            rw [hdlen]
            push_cast [le_of_lt hofflt]
            omega
          have hrest : (n - ((f.drop s.buffer_offset).length : Int)).toNat
              = n.toNat - (f.drop s.buffer_offset).length := by omega
          refine ⟨?_, ?_, ih3, ?_⟩
          · simp only [List.flatten_cons, ih1, hcont', hcont, hrest]
            rw [List.take_append_eq_append_take]
            congr 2
            rw [List.take_of_length_le (by omega)]
          · show (StreamReader.read_nowait_go fuel s'
                (n - (f.drop s.buffer_offset).length)).2.contents
              = s.contents.drop n.toNat
            have hdropnil : (f.drop s.buffer_offset).drop n.toNat = [] :=
              List.drop_of_length_le (by omega)
            rw [ih2, hcont', hcont, hrest, List.drop_append_eq_append_drop,
                hdropnil]
            simp
          · obtain ⟨m1, m2, m3, m4, m5, m6⟩ := ih4
            exact ⟨m1, m2, m3, m4, m5, m6⟩
theorem WF_off_le {s : StreamReader} (hwf : s.WF) :
    s.buffer_offset ≤ s.buffer.flatten.length := by
  obtain ⟨_, _, hoff0, hoffc⟩ := hwf
  match hb : s.buffer with
  | [] => simp [hoff0 hb]
  | c :: r =>
    have := hoffc c r hb
    simp only [List.flatten_cons, List.length_append]
    omega

theorem read_nowait_neg (s : StreamReader) (hwf : s.WF) :
    (s.read_nowait (-1)).1 = s.contents
    ∧ (s.read_nowait (-1)).2.buffer = []
    ∧ (s.read_nowait (-1)).2.buffer_offset = 0
    ∧ (s.read_nowait (-1)).2.buffer_size = 0
    ∧ SameMeta s (s.read_nowait (-1)).2 := by
  obtain ⟨h1, h2, h3, h4, h5⟩ :=
    read_nowait_go_neg (s.buffer.length + 1) s (by omega) hwf
  exact ⟨h1, h2, h3, h4, h5⟩

theorem read_nowait_pos (s : StreamReader) (n : Int) (hwf : s.WF)
    (hn : 1 ≤ n) :
    (s.read_nowait n).1 = s.contents.take n.toNat
    ∧ (s.read_nowait n).2.contents = s.contents.drop n.toNat
    ∧ (s.read_nowait n).2.WF
    ∧ SameMeta s (s.read_nowait n).2 := by
  obtain ⟨h1, h2, h3, h4⟩ :=
    read_nowait_go_pos (s.buffer.length + 1) s n (by omega) hwf hn
  exact ⟨h1, h2, h3, h4⟩

theorem feed_data_spec (s : StreamReader) (data : Bytes)
    (heof : s.eof = false) (hwf : s.WF) (hw : s.waiter = false) :
    ∃ s', s.feed_data data = .ok (s', none)
      ∧ s'.WF
      ∧ s'.contents = s.contents ++ data
      ∧ s'.eof = false ∧ s'.waiter = false
      ∧ s'.exception = s.exception ∧ s'.limit = s.limit
      ∧ s'.eof_waiter = s.eof_waiter := by
  obtain ⟨hsz, hne, hoff0, hoffc⟩ := hwf
  by_cases hd : data = []
  · refine ⟨s, ?_, ⟨hsz, hne, hoff0, hoffc⟩, by simp [hd], heof, hw,
      rfl, rfl, rfl⟩
    simp [StreamReader.feed_data, heof, hd]
  · refine ⟨({ s with
               buffer := s.buffer ++ [data],
               buffer_size := s.buffer_size + data.length,
               total_bytes := s.total_bytes + data.length } : StreamReader),
      ?_, ⟨?_, ?_, ?_, ?_⟩, ?_, heof, hw, rfl, rfl, rfl⟩
    · simp only [StreamReader.feed_data, heof, Bool.false_eq_true, if_false,
        hd, hw]
    · show s.buffer_size + (data.length : Int)
        = ((s.buffer ++ [data]).flatten.length : Int) - s.buffer_offset
      simp only [List.flatten_append, List.flatten_cons, List.flatten_nil,
        List.append_nil, List.length_append]
      push_cast
      omega
    · intro c hc
      rcases List.mem_append.mp hc with h | h
      · exact hne c h
      · simp only [List.mem_singleton] at h
        rw [h]; exact hd
    · intro h
      exact absurd h (by simp)
    · intro c r hr
      match hb : s.buffer with
      | [] =>
        rw [hb] at hr
        simp only [List.nil_append, List.cons.injEq] at hr
        have ho := hoff0 hb
        rw [ho, ← hr.1]
        exact List.length_pos.mpr hd
      | c' :: r' =>
        rw [hb] at hr
        simp only [List.cons_append, List.cons.injEq] at hr
        have := hoffc c' r' hb
        rw [← hr.1]
        exact this
    · show (s.buffer ++ [data]).flatten.drop s.buffer_offset
        = s.contents ++ data
      have hle : s.buffer_offset ≤ s.buffer.flatten.length :=
        WF_off_le ⟨hsz, hne, hoff0, hoffc⟩
      simp only [StreamReader.contents, List.flatten_append,
        List.flatten_cons, List.flatten_nil, List.append_nil]
      rw [List.drop_append_of_le_length hle]

theorem feedList_spec (cs : List Bytes) :
    ∀ s : StreamReader, s.eof = false → s.WF → s.waiter = false →
    ∃ sf, feedList s cs = .ok sf
      ∧ sf.WF
      ∧ sf.contents = s.contents ++ cs.flatten
      ∧ sf.eof = false ∧ sf.waiter = false
      ∧ sf.exception = s.exception ∧ sf.limit = s.limit
      ∧ sf.eof_waiter = s.eof_waiter := by
  induction cs with
  | nil =>
    intro s heof hwf hw
    exact ⟨s, rfl, hwf, by simp, heof, hw, rfl, rfl, rfl⟩
  | cons c rest ih =>
    intro s heof hwf hw
    obtain ⟨s', hok, hwf', hcont', heof', hw', hexc', hlim', hew'⟩ :=
      feed_data_spec s c heof hwf hw
    obtain ⟨sf, hokf, hwff, hcontf, heoff, hwf2, hexcf, hlimf, hewf⟩ :=
      ih s' heof' hwf' hw'
    refine ⟨sf, ?_, hwff, ?_, heoff, hwf2, by rw [hexcf, hexc'],
      by rw [hlimf, hlim'], by rw [hewf, hew']⟩
    · show feedList s (c :: rest) = .ok sf
      simp only [feedList, hok]
      exact hokf
    · rw [hcontf, hcont', List.flatten_cons, List.append_assoc]
theorem readany_ready (s : StreamReader) (hexc : s.exception = none)
    (hready : ¬ (s.buffer = [] ∧ s.eof = false)) (hwf : s.WF) :
    s.readany = .done s.contents (s.read_nowait (-1)).2
    ∧ (s.read_nowait (-1)).2.buffer = []
    ∧ (s.read_nowait (-1)).2.buffer_offset = 0
    ∧ (s.read_nowait (-1)).2.buffer_size = 0
    ∧ SameMeta s (s.read_nowait (-1)).2 := by
  obtain ⟨h1, h2, h3, h4, h5⟩ := read_nowait_neg s hwf
  refine ⟨?_, h2, h3, h4, h5⟩
  simp only [StreamReader.readany, hexc]
  rw [if_neg hready, ← h1]

theorem readany_empty_eof (s : StreamReader) (hexc : s.exception = none)
    (hb : s.buffer = []) (heof : s.eof = true) :
    s.readany = .done [] s := by
  simp only [StreamReader.readany, hexc, heof, hb]
  simp [StreamReader.read_nowait, StreamReader.read_nowait_go, hb]

/-- C1: for every sequence `feed_data(c1) ... feed_data(cn); feed_eof()` on
a fresh `StreamReader`, the feeds all succeed and the concatenation of
repeated `readany()` results (until the empty result that signals EOF)
is exactly `c1 + ... + cn`: no byte lost, reordered or duplicated. -/
theorem C1_readany_reconstructs_stream (limit : Nat) (cs : List Bytes) :
    ∃ sf : StreamReader,
      feedList (StreamReader.init limit) cs = .ok sf
      ∧ drainReadany 2 (sf.feed_eof).1 = some cs.flatten := by
  have hwf0 : (StreamReader.init limit).WF := by
    refine ⟨by simp [StreamReader.init], by simp [StreamReader.init],
      fun _ => rfl, fun c r h => ?_⟩
    exact absurd h (by simp [StreamReader.init])
  obtain ⟨sf, hok, hwf, hcont, heof, hw, hexc, hlim, hew⟩ :=
    feedList_spec cs (StreamReader.init limit) rfl hwf0 rfl
  refine ⟨sf, hok, ?_⟩
  set t : StreamReader := (sf.feed_eof).1 with ht
  have hteof : t.eof = true := rfl
  have htcont : t.contents = cs.flatten := by
    show sf.contents = cs.flatten
    rw [hcont]
    simp [StreamReader.contents, StreamReader.init]
  have htexc : t.exception = none := by
    show sf.exception = none
    rw [hexc]
    rfl
  have htwf : t.WF := by
    obtain ⟨a, b, c, d⟩ := hwf
    exact ⟨a, b, c, d⟩
  have hready : ¬ (t.buffer = [] ∧ t.eof = false) := by
    intro h
    rw [hteof] at h
    exact absurd h.2 (by simp)
  obtain ⟨hdone, htb', hto', hts', hmeta⟩ := readany_ready t htexc hready htwf
  obtain ⟨hm1, hm2, hm3, hm4, hm5, hm6⟩ := hmeta
  have hdone2 : (t.read_nowait (-1)).2.readany = .done [] (t.read_nowait (-1)).2 :=
    readany_empty_eof _ (by rw [hm5, htexc]) htb' (by rw [hm2, hteof])
  simp only [drainReadany, hdone, htcont, hdone2]
  by_cases hflat : cs.flatten = []
  · simp [hflat]
  · simp [hflat]
theorem unread_spec (s : StreamReader) (d : Bytes) (hwf : s.WF)
    (hd : d ≠ []) :
    (s.unread_data d).contents = d ++ s.contents
    ∧ (s.unread_data d).buffer_size = s.buffer_size + d.length
    ∧ (s.unread_data d).WF
    ∧ (s.unread_data d).exception = s.exception
    ∧ (s.unread_data d).eof = s.eof
    ∧ (s.unread_data d).buffer ≠ [] := by
  obtain ⟨hsz, hne, hoff0, hoffc⟩ := hwf
  by_cases hoff : s.buffer_offset = 0
  · have hu : s.unread_data d =
        { s with buffer := d :: s.buffer,
                 buffer_size := s.buffer_size + d.length } := by
      simp only [StreamReader.unread_data, hoff]
      rw [if_neg hd]
      simp [hoff]
    rw [hu]
    refine ⟨?_, rfl, ⟨?_, ?_, ?_, ?_⟩, rfl, rfl, by simp⟩
    · simp [StreamReader.contents, hoff]
    · show s.buffer_size + (d.length : Int)
        = ((d :: s.buffer).flatten.length : Int) - s.buffer_offset
      simp only [List.flatten_cons, List.length_append]
      push_cast
      omega
    · intro c hc
      rcases List.mem_cons.mp hc with h | h
      · rw [h]; exact hd
      · exact hne c h
    · intro h; exact absurd h (by simp)
    · intro c r h
      simp only [List.cons.injEq] at h
      rw [hoff, ← h.1]
      exact List.length_pos.mpr hd
  · -- a non-zero offset forces a non-empty deque
    match hb : s.buffer with
    | [] => exact absurd (hoff0 hb) hoff
    | f :: r =>
      have hofflt : s.buffer_offset < f.length := hoffc f r hb
      have hu : s.unread_data d =
          { s with buffer := d :: (f.drop s.buffer_offset) :: r,
                   buffer_offset := 0,
                   buffer_size := s.buffer_size + d.length } := by
        simp only [StreamReader.unread_data, hb]
        rw [if_neg hd, if_pos hoff]
      rw [hu]
      have hscont : s.contents = f.drop s.buffer_offset ++ r.flatten := by
        simp only [StreamReader.contents, hb, List.flatten_cons]
        exact List.drop_append_of_le_length (le_of_lt hofflt)
      refine ⟨?_, rfl, ⟨?_, ?_, ?_, ?_⟩, rfl, rfl, by simp⟩
      · show (d :: (f.drop s.buffer_offset) :: r).flatten.drop 0
          = d ++ s.contents
        rw [hscont]
        simp
      · show s.buffer_size + (d.length : Int)
          = ((d :: (f.drop s.buffer_offset) :: r).flatten.length : Int) - (0 : Nat)
        rw [hb] at hsz
        simp only [List.flatten_cons, List.length_append, List.length_drop]
          at hsz ⊢
        have : s.buffer_offset ≤ f.length := le_of_lt hofflt
        push_cast [this]
        omega
      · intro c hc
        rcases List.mem_cons.mp hc with h | hc
        · rw [h]; exact hd
        rcases List.mem_cons.mp hc with h | hc
        · rw [h]
          intro hcontra
          have := congrArg List.length hcontra
          simp only [List.length_drop, List.length_nil] at this
          omega
        · exact hne c (by rw [hb]; exact List.mem_cons_of_mem _ hc)
      · intro h; exact absurd h (by simp)
      · intro c r' h
        simp only [List.cons.injEq] at h
        show (0 : Nat) < c.length
        rw [← h.1]
        exact List.length_pos.mpr hd

/-- C10: `unread_data(d)` with non-empty `d` prepends `d` to the buffer
head and grows the buffered size by `len(d)`; the immediately following
`read(len(d))` therefore returns exactly `d` again and leaves the
remaining contents as they were before the unread (so `unread_data` undoes
a read); `unread_data` with an empty argument leaves the reader entirely
unchanged. -/
theorem C10_unread_data_undoes_read (s : StreamReader) (d : Bytes)
    (hwf : s.WF) (hd : d ≠ []) (hexc : s.exception = none) :
    (s.unread_data d).contents = d ++ s.contents
    ∧ (s.unread_data d).buffer_size = s.buffer_size + d.length
    ∧ (∃ s', (s.unread_data d).read d.length = .done d s'
        ∧ s'.contents = s.contents)
    ∧ s.unread_data [] = s := by
  obtain ⟨hc, hsz, hwfu, hexcu, heofu, hbne⟩ := unread_spec s d hwf hd
  have hlen : (1 : Int) ≤ (d.length : Int) := by
    have := List.length_pos.mpr hd
    omega
  obtain ⟨r1, r2, r3, r4⟩ :=
    read_nowait_pos (s.unread_data d) d.length hwfu hlen
  refine ⟨hc, hsz, ⟨((s.unread_data d).read_nowait d.length).2, ?_, ?_⟩,
    by simp [StreamReader.unread_data]⟩
  · have hexcu' : (s.unread_data d).exception = none := by rw [hexcu, hexc]
    simp only [StreamReader.read, hexcu']
    rw [if_neg (by omega), if_neg (by omega), if_neg (by simp [hbne])]
    rw [show ((s.unread_data d).read_nowait d.length).1 = d from ?_]
    · rw [r1, hc]
      simp [List.take_left]
  · rw [r2, hc]
    simp [List.drop_left]
/-- Witness for C10 at a concrete reader holding the single chunk
`[1, 2]`, with `[3]` unread onto it. -/
theorem C10_unread_data_undoes_read_witness :
    (StreamReader.WF ⟨16, [[1, 2]], 2, 0, false, false, false, none, 2⟩)
    ∧ ([3] : Bytes) ≠ []
    ∧ (StreamReader.exception ⟨16, [[1, 2]], 2, 0, false, false, false, none, 2⟩
        = none)
    ∧ (StreamReader.unread_data
        ⟨16, [[1, 2]], 2, 0, false, false, false, none, 2⟩ [3]).contents
        = [3] ++ (StreamReader.contents
            ⟨16, [[1, 2]], 2, 0, false, false, false, none, 2⟩)
    ∧ (∃ s', (StreamReader.unread_data
          ⟨16, [[1, 2]], 2, 0, false, false, false, none, 2⟩ [3]).read
            (([3] : Bytes).length)
          = .done [3] s'
        ∧ s'.contents = StreamReader.contents
            ⟨16, [[1, 2]], 2, 0, false, false, false, none, 2⟩) := by
  have hwf : StreamReader.WF ⟨16, [[1, 2]], 2, 0, false, false, false, none, 2⟩ := by
    refine ⟨by decide, by decide, by decide, ?_⟩
    intro c r h
    injection h with h1 h2
    rw [← h1]
    decide
  have happ := C10_unread_data_undoes_read
    ⟨16, [[1, 2]], 2, 0, false, false, false, none, 2⟩ [3] hwf (by decide) rfl
  exact ⟨hwf, by decide, rfl, happ.1, happ.2.2.1⟩
theorem read_pos_ready (s : StreamReader) (n : Int)
    (hexc : s.exception = none) (hn : 1 ≤ n)
    (hready : ¬ (s.buffer = [] ∧ s.eof = false)) :
    s.read n = .done (s.read_nowait n).1 (s.read_nowait n).2 := by
  simp only [StreamReader.read, hexc]
  rw [if_neg (by omega), if_neg (by omega), if_neg hready]

theorem drainRead_eof (n : Int) (hn : 1 ≤ n) :
    ∀ (k : Nat) (s : StreamReader), s.contents.length < k → s.WF →
      s.exception = none → s.eof = true →
      drainRead n k s = some s.contents := by
  intro k
  induction k with
  | zero => intro s hk _ _ _; omega
  | succ k ih =>
    intro s hk hwf hexc heof
    have hready : ¬ (s.buffer = [] ∧ s.eof = false) := by
      intro h; rw [heof] at h; exact absurd h.2 (by simp)
    have hread := read_pos_ready s n hexc hn hready
    obtain ⟨r1, r2, r3, r4⟩ := read_nowait_pos s n hwf hn
    obtain ⟨m1, m2, m3, m4, m5, m6⟩ := r4
    by_cases hempty : s.contents = []
    · have hval : (s.read_nowait n).1 = [] := by
        rw [r1, hempty, List.take_nil]
      simp only [drainRead, hread, hval, if_pos]
      rw [hempty]
    · have hval : (s.read_nowait n).1 ≠ [] := by
        rw [r1]
        intro hcontra
        have := congrArg List.length hcontra
        simp only [List.length_take, List.length_nil] at this
        have hc := List.length_pos.mpr hempty
        omega
      have hlt : (s.read_nowait n).2.contents.length < k := by
        rw [r2, List.length_drop]
        have hc := List.length_pos.mpr hempty
        omega
      have hrec := ih (s.read_nowait n).2 hlt r3 (by rw [m5, hexc])
        (by rw [m2, heof])
      have hcat : (s.read_nowait n).1 ++ (s.read_nowait n).2.contents
          = s.contents := by
        rw [r1, r2]
        exact List.take_append_drop _ _
      simp only [drainRead, hread, if_neg hval, hrec]
      simp [hcat]

/-- C7: reads of a well-formed reader with no stored exception: `read(0)`
returns empty immediately; a completed `read(n)` with `n > 0` never
delivers more than `n` bytes; `read(n)` suspends exactly when the buffer is
empty and EOF has not been signalled (and then only once: the resumed
phase is the non-suspending `_read_nowait(n)`, which also delivers at most
`n` bytes); and once EOF is signalled, repeated `read(n)` calls until an
empty result concatenate to the complete buffered stream. -/
theorem C7_read_bounded_and_reconstructs (s : StreamReader) (n : Int)
    (hwf : s.WF) (hexc : s.exception = none) (hn : 1 ≤ n) :
    s.read 0 = .done [] s
    ∧ (∀ b s', s.read n = .done b s' → (b.length : Int) ≤ n)
    ∧ (s.waiter = false →
        (s.read n = .suspended { s with waiter := true }
          ↔ s.buffer = [] ∧ s.eof = false))
    ∧ (((s.read_resume n).1.length : Int) ≤ n)
    ∧ (s.eof = true → drainRead n (s.contents.length + 1) s = some s.contents) := by
  obtain ⟨r1, r2, r3, r4⟩ := read_nowait_pos s n hwf hn
  have hbound : ((s.read_nowait n).1.length : Int) ≤ n := by
    rw [r1]
    simp only [List.length_take]
    omega
  refine ⟨?_, ?_, ?_, hbound, ?_⟩
  · simp [StreamReader.read, hexc]
  · intro b s' h
    by_cases hready : ¬ (s.buffer = [] ∧ s.eof = false)
    · rw [read_pos_ready s n hexc hn hready] at h
      have hb : b = (s.read_nowait n).1 := by
        injection h with h1 h2
        exact h1.symm
      rw [hb]
      exact hbound
    · push_neg at hready
      simp only [StreamReader.read, hexc] at h
      rw [if_neg (by omega), if_neg (by omega),
        if_pos ⟨hready.1, hready.2⟩] at h
      unfold StreamReader.wait_step at h
      by_cases hw : s.waiter
      · rw [if_pos hw] at h; cases h
      · rw [if_neg hw] at h; cases h
  · intro hw
    constructor
    · intro h
      by_contra hready
      rw [read_pos_ready s n hexc hn hready] at h
      cases h
    · intro hcond
      simp only [StreamReader.read, hexc]
      rw [if_neg (by omega), if_neg (by omega), if_pos hcond]
      unfold StreamReader.wait_step
      rw [if_neg (by rw [hw]; simp), hexc]
  · intro heof
    exact drainRead_eof n hn (s.contents.length + 1) s (by omega) hwf hexc heof

/-- Witness for C7 at a concrete reader holding the chunk `[1, 2, 3]` with
EOF already signalled, reading with `n = 2`. -/
theorem C7_read_bounded_and_reconstructs_witness :
    (StreamReader.WF ⟨16, [[1, 2, 3]], 3, 0, true, false, false, none, 3⟩)
    ∧ (1 : Int) ≤ 2
    ∧ (StreamReader.eof ⟨16, [[1, 2, 3]], 3, 0, true, false, false, none, 3⟩ = true
        → drainRead 2
            ((StreamReader.contents
              ⟨16, [[1, 2, 3]], 3, 0, true, false, false, none, 3⟩).length + 1)
            ⟨16, [[1, 2, 3]], 3, 0, true, false, false, none, 3⟩
          = some (StreamReader.contents
              ⟨16, [[1, 2, 3]], 3, 0, true, false, false, none, 3⟩)) := by
  have hwf : StreamReader.WF ⟨16, [[1, 2, 3]], 3, 0, true, false, false, none, 3⟩ := by
    refine ⟨by decide, by decide, by decide, ?_⟩
    intro c r h
    injection h with h1 h2
    rw [← h1]
    decide
  have happ := C7_read_bounded_and_reconstructs
    ⟨16, [[1, 2, 3]], 3, 0, true, false, false, none, 3⟩ 2 hwf rfl (by decide)
  exact ⟨hwf, by decide, happ.2.2.2.2⟩
/-- C8: on a well-formed reader at EOF with no stored exception,
`readexactly(n)` returns exactly `n` bytes when at least `n` are buffered;
otherwise it raises `IncompleteReadError` whose `partial` field carries all
the fewer-than-`n` buffered bytes and whose `expected` count is the partial
length plus the bytes still missing (that is, `n`). -/
theorem C8_readexactly_exact_or_incomplete (s : StreamReader) (n : Int)
    (hwf : s.WF) (hexc : s.exception = none) (heof : s.eof = true)
    (hn : 1 ≤ n) :
    (n ≤ (s.contents.length : Int) →
      ∃ s', s.readexactly n = .done (s.contents.take n.toNat) s'
        ∧ ((s.contents.take n.toNat).length : Int) = n)
    ∧ ((s.contents.length : Int) < n →
      ∃ s', s.readexactly n = .incomplete s.contents n.toNat s'
        ∧ n.toNat = s.contents.length + (n - (s.contents.length : Int)).toNat) := by
  have hready : ¬ (s.buffer = [] ∧ s.eof = false) := by
    intro h; rw [heof] at h; exact absurd h.2 (by simp)
  have hread := read_pos_ready s n hexc hn hready
  obtain ⟨r1, r2, r3, r4⟩ := read_nowait_pos s n hwf hn
  obtain ⟨m1, m2, m3, m4, m5, m6⟩ := r4
  obtain ⟨m, hm⟩ : ∃ m, n.toNat = m + 1 := ⟨n.toNat - 1, by omega⟩
  constructor
  · -- enough bytes buffered: the first read already delivers n bytes
    intro hge
    have hval : (s.read_nowait n).1 = s.contents.take n.toNat := r1
    have hlen : (s.contents.take n.toNat).length = n.toNat := by
      simp only [List.length_take]
      omega
    have hne : (s.read_nowait n).1 ≠ [] := by
      rw [hval]
      intro hcontra
      have := congrArg List.length hcontra
      rw [hlen] at this
      simp at this
      omega
    refine ⟨(s.read_nowait n).2, ?_, by rw [hlen]; omega⟩
    simp only [StreamReader.readexactly, hexc, hm, StreamReader.readexactly_loop]
    rw [if_pos (by omega)]
    simp only [hread, if_neg hne]
    have hzero : n - ((s.read_nowait n).1.length : Int) = 0 := by
      rw [hval, hlen]
      omega
    match hm2 : m with
    | 0 =>
      simp only [StreamReader.readexactly_loop]
      rw [if_neg (by rw [hzero]; omega)]
      (simp [hval]; omega)
    | k + 1 =>
      simp only [StreamReader.readexactly_loop]
      rw [if_neg (by rw [hzero]; omega)]
      (simp [hval]; omega)
  · -- EOF arrives first: everything buffered becomes the partial result
    intro hlt
    by_cases hemp : s.contents = []
    · -- nothing buffered at all: the very first read returns empty
      refine ⟨(s.read_nowait n).2, ?_, by rw [hemp]; simp⟩
      have hval : (s.read_nowait n).1 = [] := by
        rw [r1, hemp, List.take_nil]
      simp only [StreamReader.readexactly, hexc, hm, StreamReader.readexactly_loop]
      rw [if_pos (by omega)]
      simp only [hread, hval, if_pos]
      simp [hemp]
    · -- some bytes buffered: one read collects them, the next returns empty
      have hval : (s.read_nowait n).1 = s.contents := by
        rw [r1]
        exact List.take_of_length_le (by omega)
      have hne : (s.read_nowait n).1 ≠ [] := by rw [hval]; exact hemp
      have hcont' : (s.read_nowait n).2.contents = [] := by
        rw [r2]
        exact List.drop_of_length_le (by omega)
      have hlenpos := List.length_pos.mpr hemp
      set t := (s.read_nowait n).2 with ht
      have hready' : ¬ (t.buffer = [] ∧ t.eof = false) := by
        intro h
        rw [m2, heof] at h
        exact absurd h.2 (by simp)
      have hn2 : 1 ≤ n - ((s.read_nowait n).1.length : Int) := by
        rw [hval]
        omega
      have hread2 := read_pos_ready t (n - ((s.read_nowait n).1.length : Int))
        (by rw [m5, hexc]) hn2 hready'
      obtain ⟨q1, q2, q3, q4⟩ :=
        read_nowait_pos t (n - ((s.read_nowait n).1.length : Int)) r3 hn2
      have hval2 : (t.read_nowait (n - ((s.read_nowait n).1.length : Int))).1 = [] := by
        rw [q1, hcont', List.take_nil]
      refine ⟨(t.read_nowait (n - ((s.read_nowait n).1.length : Int))).2, ?_, by omega⟩
      simp only [StreamReader.readexactly, hexc, hm, StreamReader.readexactly_loop]
      rw [if_pos (by omega)]
      simp only [hread, if_neg hne]
      rw [show m = (m - 1) + 1 from by omega]
      simp only [StreamReader.readexactly_loop]
      rw [if_pos (by rw [hval]; omega)]
      simp only [hread2, hval2, if_pos]
      simp only [List.reverse_cons, List.reverse_nil, List.nil_append,
        List.flatten_cons, List.flatten_nil, List.append_nil, hval]
      congr 1
      omega
/-- Witness for C8: a reader at EOF holding only `[1, 2]`, asked for 5
bytes, raises `IncompleteReadError([1, 2], 5)`. -/
theorem C8_readexactly_exact_or_incomplete_witness :
    (StreamReader.WF ⟨16, [[1, 2]], 2, 0, true, false, false, none, 2⟩)
    ∧ (1 : Int) ≤ 5
    ∧ (((StreamReader.contents
          ⟨16, [[1, 2]], 2, 0, true, false, false, none, 2⟩).length : Int) < 5)
    ∧ (∃ s', StreamReader.readexactly
          ⟨16, [[1, 2]], 2, 0, true, false, false, none, 2⟩ 5
          = .incomplete (StreamReader.contents
              ⟨16, [[1, 2]], 2, 0, true, false, false, none, 2⟩)
            ((5 : Int).toNat) s'
        ∧ (5 : Int).toNat
            = (StreamReader.contents
                ⟨16, [[1, 2]], 2, 0, true, false, false, none, 2⟩).length
              + ((5 : Int) - ((StreamReader.contents
                  ⟨16, [[1, 2]], 2, 0, true, false, false, none, 2⟩).length
                    : Int)).toNat) := by
  have hwf : StreamReader.WF ⟨16, [[1, 2]], 2, 0, true, false, false, none, 2⟩ := by
    refine ⟨by decide, by decide, by decide, ?_⟩
    intro c r h
    injection h with h1 h2
    rw [← h1]
    decide
  have happ := C8_readexactly_exact_or_incomplete
    ⟨16, [[1, 2]], 2, 0, true, false, false, none, 2⟩ 5 hwf rfl rfl (by decide)
  exact ⟨hwf, by decide, by decide, happ.2 (by decide)⟩
/-- C4 counterexample: `DataQueue.feed_data` performs no EOF check, unlike
`StreamReader.feed_data` with its `assert not self._eof`.  Feeding a queue
already at EOF does not fail with a usage error: the item is appended and
the size accounting grows as on a live queue. -/
theorem C4_counterexample_dataqueue_feed_after_eof :
    (DataQueue.feed_data ⟨true, false, none, 0, []⟩ 7 3).1
      = ⟨true, false, none, 3, [(7, 3)]⟩ := by decide

/-- C4 (amended): a suspending read (`read`, `readany`, `readline`,
`readexactly` on `StreamReader`, or `DataQueue.read`) issued while another
read's waiter is pending fails immediately with the usage `RuntimeError`
(resp. the failed `assert not self._waiter`), leaving the state — and so
the pending waiter — untouched; `feed_data` after `feed_eof` fails with a
usage error on `StreamReader`, while `DataQueue.feed_data` performs no EOF
check and appends the item normally. -/
theorem C4_concurrent_read_usage_error (s : StreamReader) (q : DataQueue)
    (n : Int) (hn : 1 ≤ n)
    (hw : s.waiter = true) (hb : s.buffer = []) (heof : s.eof = false)
    (hexc : s.exception = none)
    (hqw : q.waiter = true) (hqb : q.buffer = []) (hqeof : q.eof = false)
    (hqexc : q.exception = none) :
    s.read n = .usage s
    ∧ s.readany = .usage s
    ∧ s.readline = .usage s
    ∧ s.readexactly n = .usage s
    ∧ q.read = .usage q
    ∧ (∀ (t : StreamReader) (d : Bytes), t.eof = true → t.feed_data d = .error ())
    ∧ (∀ (p : DataQueue) (d : Nat) (sz : Int), p.eof = true →
        (p.feed_data d sz).1.buffer = p.buffer ++ [(d, sz)]) := by
  have hcond : s.buffer = [] ∧ s.eof = false := ⟨hb, heof⟩
  have hread : s.read n = .usage s := by
    simp only [StreamReader.read, hexc]
    rw [if_neg (by omega), if_neg (by omega), if_pos hcond]
    unfold StreamReader.wait_step
    rw [if_pos hw]
  refine ⟨hread, ?_, ?_, ?_, ?_, ?_, ?_⟩
  · simp only [StreamReader.readany, hexc]
    rw [if_pos hcond]
    unfold StreamReader.wait_step
    rw [if_pos hw]
  · simp only [StreamReader.readline, hexc, hb, List.length_nil,
      StreamReader.readline_inner]
    rw [if_neg (by rw [heof]; simp), if_pos trivial]
    unfold StreamReader.wait_step
    rw [if_pos hw]
  · simp only [StreamReader.readexactly, hexc, StreamReader.readexactly_loop]
    rw [if_pos (by omega)]
    simp only [hread]
  · simp only [DataQueue.read]
    rw [if_pos ⟨hqb, hqeof⟩]
    simp only [hqexc]
    rw [if_pos hqw]
  · intro t d ht
    simp [StreamReader.feed_data, ht]
  · intro p d sz hp
    simp [DataQueue.feed_data]
    by_cases hw' : p.waiter <;> simp [hw']

/-- Witness for C4 at a concrete empty reader and queue, each with a
pending waiter. -/
theorem C4_concurrent_read_usage_error_witness :
    (1 : Int) ≤ 1
    ∧ StreamReader.read ⟨16, [], 0, 0, false, true, false, none, 0⟩ 1
        = .usage ⟨16, [], 0, 0, false, true, false, none, 0⟩
    ∧ DataQueue.read ⟨false, true, none, 0, []⟩
        = .usage ⟨false, true, none, 0, []⟩ := by
  have happ := C4_concurrent_read_usage_error
    ⟨16, [], 0, 0, false, true, false, none, 0⟩ ⟨false, true, none, 0, []⟩ 1
    (by decide) rfl rfl rfl rfl rfl rfl rfl rfl
  exact ⟨by decide, happ.1, happ.2.2.2.2.1⟩
/-- C5 counterexample: a `DataQueue` holding a buffered item returns that
item from `read()` even though an exception is stored — the stored
exception is only raised once the buffer is empty, so not every subsequent
`DataQueue.read` raises it. -/
theorem C5_counterexample_dataqueue_read_buffered_item :
    DataQueue.read ⟨false, false, some 5, 3, [(7, 3)]⟩
      = .item 7 ⟨false, false, some 5, 0, []⟩ := by decide

/-- C5 (amended): `set_exception(e)` stores `e` permanently and wakes a
pending waiter with `e`, on both `StreamReader` and `DataQueue`; every
subsequent `StreamReader` consumer read (`read`, `readany`, `readline`,
`readexactly`, `read_nowait`) raises the stored exception, and
`DataQueue.read` raises it once the buffer is empty (with items still
buffered it returns them first); no operation ever clears a stored
exception. -/
theorem C5_set_exception_stored_and_replayed (s : StreamReader)
    (q : DataQueue) (e : Nat) (n : Int) :
    (s.set_exception e).1.exception = some e
    ∧ (s.waiter = true → WakeEvent.exc e ∈ (s.set_exception e).2)
    ∧ (∀ t : StreamReader, t.exception = some e →
        t.read n = .raised e t
        ∧ t.readany = .raised e t
        ∧ t.readline = .raised e t
        ∧ t.readexactly n = .raised e t
        ∧ t.read_nowait_checked n = .raised e t)
    ∧ (∀ (d : Bytes) (s' : StreamReader) (ev),
        s.feed_data d = .ok (s', ev) → s'.exception = s.exception)
    ∧ (s.feed_eof).1.exception = s.exception
    ∧ (∀ d : Bytes, (s.unread_data d).exception = s.exception)
    ∧ (∀ e' : Nat, (s.set_exception e').1.exception = some e')
    ∧ (q.set_exception e).1.exception = some e
    ∧ (q.waiter = true → (q.set_exception e).2 = some (.exc e))
    ∧ (∀ p : DataQueue, p.exception = some e → p.buffer = [] →
        p.read = .raised e p) := by
  refine ⟨rfl, ?_, ?_, ?_, rfl, ?_, fun _ => rfl, rfl, ?_, ?_⟩
  · intro hw
    simp [StreamReader.set_exception, hw]
  · intro t ht
    exact ⟨by simp [StreamReader.read, ht], by simp [StreamReader.readany, ht],
      by simp [StreamReader.readline, ht],
      by simp [StreamReader.readexactly, ht],
      by simp [StreamReader.read_nowait_checked, ht]⟩
  · intro d s' ev h
    unfold StreamReader.feed_data at h
    by_cases heof : s.eof
    · rw [if_pos heof] at h
      cases h
    · rw [if_neg heof] at h
      by_cases hd : d = []
      · rw [if_pos hd] at h
        simp only [Except.ok.injEq, Prod.mk.injEq] at h
        rw [← h.1]
      · rw [if_neg hd] at h
        by_cases hw : s.waiter
        · simp only [hw, if_true, Except.ok.injEq, Prod.mk.injEq] at h
          rw [← h.1]
        · simp only [hw, if_false, Except.ok.injEq, Prod.mk.injEq,
            Bool.false_eq_true] at h
          rw [← h.1]
  · intro d
    unfold StreamReader.unread_data
    by_cases hd : d = []
    · rw [if_pos hd]
    · rw [if_neg hd]
      by_cases hoff : s.buffer_offset ≠ 0 <;> simp [hoff]
  · intro hqw
    simp [DataQueue.set_exception, hqw]
  · intro p hpe hpb
    unfold DataQueue.read
    by_cases hpeof : p.eof = false
    · rw [if_pos ⟨hpb, hpeof⟩]
      simp [hpe]
    · rw [if_neg (by intro h; exact hpeof h.2)]
      rw [hpb]
      simp [hpe]

/-- Witness for C5 at a concrete reader, queue and exception tag `5`:
the exception is stored and a subsequent `read(1)` replays it. -/
theorem C5_set_exception_stored_and_replayed_witness :
    (StreamReader.set_exception
        ⟨16, [], 0, 0, false, false, false, none, 0⟩ 5).1.exception = some 5
    ∧ (StreamReader.exception ⟨16, [], 0, 0, false, false, false, some 5, 0⟩
        = some 5)
    ∧ StreamReader.read ⟨16, [], 0, 0, false, false, false, some 5, 0⟩ 1
        = .raised 5 ⟨16, [], 0, 0, false, false, false, some 5, 0⟩
    ∧ (DataQueue.exception ⟨false, false, some 5, 0, []⟩ = some 5)
    ∧ DataQueue.read ⟨false, false, some 5, 0, []⟩
        = .raised 5 ⟨false, false, some 5, 0, []⟩ := by
  have happ := C5_set_exception_stored_and_replayed
    ⟨16, [], 0, 0, false, false, false, none, 0⟩
    ⟨false, false, some 5, 0, []⟩ 5 1
  exact ⟨happ.1, rfl, (happ.2.2.1 _ rfl).1, rfl,
    happ.2.2.2.2.2.2.2.2.2 _ rfl rfl⟩
/-- C3 counterexample: `release()` invokes the oldest queued callback with
`self` — the `StreamWriter` itself — not with the transport (`cb(self)` at
streams.py line 57, against `cb(self.transport)` in `acquire`). -/
theorem C3_counterexample_release_passes_writer :
    (StreamWriter.release ⟨false, [7]⟩).2 = some (7, CbArg.writer)
    ∧ CbArg.writer ≠ CbArg.transport := by decide

/-- C3 (amended): `acquire(cb)` invokes `cb` immediately with the transport
when the writer is available (taking the lease), and otherwise appends `cb`
to the tail of the FIFO queue invoking nothing; `release()` invokes exactly
the oldest queued callback — passing the `StreamWriter` itself rather than
the transport — keeping the lease taken and preserving the order of the
rest of the queue, or marks the writer available when nothing is queued.
Hence a queued callback runs only at a `release()` (never before it), and
always before any later-queued callback. -/
theorem C3_writer_lease_fifo (w : StreamWriter) (cb : Nat) :
    (w.available = true →
      w.acquire cb = ({ w with available := false }, some (cb, .transport)))
    ∧ (w.available = false →
      w.acquire cb = ({ w with waiters := w.waiters ++ [cb] }, none))
    ∧ (∀ x, (w.acquire cb).2 = some x → x.1 = cb ∧ w.available = true)
    ∧ (w.waiters = [] → w.release = ({ w with available := true }, none))
    ∧ (∀ c rest, w.waiters = c :: rest →
        w.release = ({ w with available := false, waiters := rest },
          some (c, .writer))) := by
  refine ⟨?_, ?_, ?_, ?_, ?_⟩
  · intro h
    simp [StreamWriter.acquire, h]
  · intro h
    simp [StreamWriter.acquire, h]
  · intro x hx
    unfold StreamWriter.acquire at hx
    by_cases h : w.available
    · rw [if_pos h] at hx
      simp only [Option.some.injEq] at hx
      rw [← hx]
      exact ⟨rfl, h⟩
    · rw [if_neg h] at hx
      cases hx
  · intro h
    unfold StreamWriter.release
    rw [h]
  · intro c rest h
    unfold StreamWriter.release
    rw [h]

/-- Witness for C3: a held writer with queue `[7, 8]` appends `9` on
`acquire` and hands the lease to `7` (with the writer object) on
`release`. -/
theorem C3_writer_lease_fifo_witness :
    StreamWriter.acquire ⟨false, [7, 8]⟩ 9 = (⟨false, [7, 8, 9]⟩, none)
    ∧ StreamWriter.release ⟨false, [7, 8]⟩
        = (⟨false, [8]⟩, some (7, CbArg.writer)) := by
  have happ := C3_writer_lease_fifo ⟨false, [7, 8]⟩ 9
  exact ⟨happ.2.1 rfl, happ.2.2.2.2 7 [8] rfl⟩
theorem registryLoop_eq_find (c : PyClass) :
    ∀ reg : List (PayloadCtor × List PyClass),
    registryLoop c reg = match reg.find? (matchesEntry c) with
      | some entry => .ok (.adapter entry.1)
      | none => .error () := by
  intro reg
  induction reg with
  | nil => rfl
  | cons entry rest ih =>
    by_cases h : matchesEntry c entry
    · simp [registryLoop, h, List.find?_cons_of_pos]
    · simp only [registryLoop, h, Bool.false_eq_true, if_false, ih]
      rw [List.find?_cons_of_neg _ (by simp [h])]

/-- C9: `PayloadRegistry.get` returns a `Payload` source unchanged;
otherwise it scans the registrations in order and the first
`(constructor, type)` pair whose type matches wins, raising the lookup
error when nothing matches.  In particular raw byte-ish buffers resolve to
`BytesPayload`, a `str` resolves to `StringPayload` whose charset defaults
to UTF-8, `io.BytesIO` resolves to the specific `BytesIOPayload` registered
before the generic `IOBasePayload`, and an unregistered type (`int`) fails
with the lookup error. -/
theorem C9_payload_registry_dispatch :
    (∀ c : PyClass, c.isSubclassOf .payload = true →
      PayloadRegistry.get PAYLOAD_REGISTRY c = .ok .unchanged)
    ∧ (∀ c : PyClass, c.isSubclassOf .payload = false →
      PayloadRegistry.get PAYLOAD_REGISTRY c
        = match PAYLOAD_REGISTRY.find? (matchesEntry c) with
          | some entry => .ok (.adapter entry.1)
          | none => .error ())
    ∧ PayloadRegistry.get PAYLOAD_REGISTRY .bytes = .ok (.adapter .bytesPayload)
    ∧ PayloadRegistry.get PAYLOAD_REGISTRY .bytearray = .ok (.adapter .bytesPayload)
    ∧ PayloadRegistry.get PAYLOAD_REGISTRY .memoryview = .ok (.adapter .bytesPayload)
    ∧ PayloadRegistry.get PAYLOAD_REGISTRY .str = .ok (.adapter .stringPayload)
    ∧ StringPayload.charsetOf stringPayloadDefaultContentType = "utf-8"
    ∧ PayloadRegistry.get PAYLOAD_REGISTRY .bytesIOCls = .ok (.adapter .bytesIOPayload)
    ∧ PayloadRegistry.get PAYLOAD_REGISTRY .bytesPayloadCls = .ok .unchanged
    ∧ PayloadRegistry.get PAYLOAD_REGISTRY .intCls = .error () := by
  refine ⟨?_, ?_, rfl, rfl, rfl, rfl, rfl, rfl, rfl, rfl⟩
  · intro c h
    unfold PayloadRegistry.get
    rw [if_pos h]
  · intro c h
    unfold PayloadRegistry.get
    rw [if_neg (by rw [h]; simp)]
    exact registryLoop_eq_find c PAYLOAD_REGISTRY

/-- Witness for C9: `StringPayload` (a `Payload` subclass) is returned
unchanged, and the unregistered `int` goes through the first-match scan
and fails. -/
theorem C9_payload_registry_dispatch_witness :
    (PyClass.isSubclassOf .stringPayloadCls .payload = true)
    ∧ PayloadRegistry.get PAYLOAD_REGISTRY .stringPayloadCls = .ok .unchanged
    ∧ (PyClass.isSubclassOf .intCls .payload = false)
    ∧ PayloadRegistry.get PAYLOAD_REGISTRY .intCls
        = match PAYLOAD_REGISTRY.find? (matchesEntry .intCls) with
          | some entry => .ok (.adapter entry.1)
          | none => .error () := by
  have happ := C9_payload_registry_dispatch
  exact ⟨rfl, happ.1 _ rfl, rfl, happ.2.1 _ rfl⟩
/-- C2: flow control on a transport supporting pause/resume.  On
`FlowControlStreamReader` (and `FlowControlDataQueue` alike): a
`feed_data` that pushes the buffered size strictly above `2*limit`
(`_b_limit`), with pausing allowed, the transport not yet paused and no
waiter pending, issues exactly one `pause_reading()` call and records the
paused state; a read completing with the buffered size strictly below the
threshold while paused issues exactly one `resume_reading()` call; and the
post-read check re-establishes the invariant that below the threshold a
previously paused transport is resumed and strictly above it the transport
is paused. -/
theorem C2_flow_control_pause_resume :
    (∀ (s : FCStreamReader) (data : Bytes),
      s.protocol.supports = true → s.allow_pause = true →
      s.protocol.reading_paused = false → s.inner.waiter = false →
      s.inner.eof = false → data ≠ [] →
      s.inner.buffer_size + data.length > s.b_limit →
      ∃ s' ev, s.feed_data data = .ok (s', ev)
        ∧ s'.protocol.pause_calls = s.protocol.pause_calls + 1
        ∧ s'.protocol.resume_calls = s.protocol.resume_calls
        ∧ s'.protocol.reading_paused = true)
    ∧ (∀ s : FCStreamReader, s.protocol.supports = true →
      s.protocol.reading_paused = true → s.inner.WF →
      s.inner.exception = none → ¬ (s.inner.buffer = [] ∧ s.inner.eof = false) →
      0 < s.b_limit →
      ∃ s', s.readany = .done s.inner.contents s'
        ∧ s'.protocol.resume_calls = s.protocol.resume_calls + 1
        ∧ s'.protocol.pause_calls = s.protocol.pause_calls
        ∧ s'.protocol.reading_paused = false)
    ∧ (∀ s : FCStreamReader, s.protocol.supports = true →
      (s.check_buffer_size).inner = s.inner
      ∧ (s.inner.buffer_size < s.b_limit →
          (s.check_buffer_size).protocol.reading_paused = false)
      ∧ (s.inner.buffer_size > s.b_limit →
          (s.check_buffer_size).protocol.reading_paused = true)
      ∧ (s.protocol.reading_paused = true → s.inner.buffer_size < s.b_limit →
          (s.check_buffer_size).protocol.resume_calls
              = s.protocol.resume_calls + 1
            ∧ (s.check_buffer_size).protocol.pause_calls
              = s.protocol.pause_calls)
      ∧ (s.protocol.reading_paused = false → s.inner.buffer_size > s.b_limit →
          (s.check_buffer_size).protocol.pause_calls
              = s.protocol.pause_calls + 1
            ∧ (s.check_buffer_size).protocol.resume_calls
              = s.protocol.resume_calls))
    ∧ (∀ (s : FCDataQueue) (d : Nat) (sz : Int),
      s.protocol.supports = true → s.allow_pause = true →
      s.protocol.reading_paused = false → s.inner.waiter = false →
      s.inner.size + sz > s.limit →
      ∃ s' ev, s.feed_data d sz = (s', ev)
        ∧ s'.protocol.pause_calls = s.protocol.pause_calls + 1
        ∧ s'.protocol.resume_calls = s.protocol.resume_calls
        ∧ s'.protocol.reading_paused = true)
    ∧ (∀ (s : FCDataQueue) (d : Nat) (sz : Int) (rest : List (Nat × Int)),
      s.protocol.supports = true → s.protocol.reading_paused = true →
      s.inner.buffer = (d, sz) :: rest →
      s.inner.size - sz < s.limit →
      ∃ s', s.read = .item d s'
        ∧ s'.protocol.resume_calls = s.protocol.resume_calls + 1
        ∧ s'.protocol.pause_calls = s.protocol.pause_calls
        ∧ s'.protocol.reading_paused = false) := by
  refine ⟨?_, ?_, ?_, ?_, ?_⟩
  · intro s data hsup hallow hpause hw heof hd hsz
    have hstep : s.inner.feed_data data = .ok
        ({ s.inner with
           buffer := s.inner.buffer ++ [data],
           buffer_size := s.inner.buffer_size + data.length,
           total_bytes := s.inner.total_bytes + data.length }, none) := by
      simp only [StreamReader.feed_data, heof, Bool.false_eq_true, if_false,
        hd, hw]
    refine ⟨({ s with
               inner := { s.inner with
                          buffer := s.inner.buffer ++ [data],
                          buffer_size := s.inner.buffer_size + data.length,
                          total_bytes := s.inner.total_bytes + data.length },
               protocol := s.protocol.try_pause } : FCStreamReader),
      none, ?_, ?_, ?_, ?_⟩
    · unfold FCStreamReader.feed_data
      simp only [hstep]
      rw [if_pos ⟨hallow, hpause, hw, by exact hsz⟩]
    · simp [Protocol.try_pause, hsup]
    · simp [Protocol.try_pause, hsup]
    · simp [Protocol.try_pause, hsup]
  · intro s hsup hpause hwf hexc hready hlim
    obtain ⟨hdone, hb', ho', hs', hmeta⟩ :=
      readany_ready s.inner hexc hready hwf
    have hchk : FCStreamReader.check_buffer_size
        { s with inner := (s.inner.read_nowait (-1)).2 }
        = { s with
            inner := (s.inner.read_nowait (-1)).2,
            protocol := s.protocol.try_resume } := by
      unfold FCStreamReader.check_buffer_size
      rw [if_pos hpause, if_pos (show (s.inner.read_nowait (-1)).2.buffer_size
        < s.b_limit from by rw [hs']; exact hlim)]
    refine ⟨({ s with
               inner := (s.inner.read_nowait (-1)).2,
               protocol := s.protocol.try_resume } : FCStreamReader),
      ?_, ?_, ?_, ?_⟩
    · unfold FCStreamReader.readany FCStreamReader.wrap
      simp only [hdone]
      rw [hchk]
    · simp [Protocol.try_resume, hsup]
    · simp [Protocol.try_resume, hsup]
    · simp [Protocol.try_resume, hsup]
  · intro s hsup
    refine ⟨?_, ?_, ?_, ?_, ?_⟩
    · unfold FCStreamReader.check_buffer_size
      by_cases hp : s.protocol.reading_paused
      · rw [if_pos hp]
        by_cases hlt : s.inner.buffer_size < s.b_limit
        · rw [if_pos hlt]
        · rw [if_neg hlt]
      · rw [if_neg hp]
        by_cases hgt : s.inner.buffer_size > s.b_limit
        · rw [if_pos hgt]
        · rw [if_neg hgt]
    · intro hlt
      unfold FCStreamReader.check_buffer_size
      by_cases hp : s.protocol.reading_paused
      · rw [if_pos hp, if_pos hlt]
        simp [Protocol.try_resume, hsup]
      · rw [if_neg hp, if_neg (by omega)]
        simpa using hp
    · intro hgt
      unfold FCStreamReader.check_buffer_size
      by_cases hp : s.protocol.reading_paused
      · rw [if_pos hp, if_neg (by omega)]
        simpa using hp
      · rw [if_neg hp, if_pos hgt]
        simp [Protocol.try_pause, hsup]
    · intro hp hlt
      unfold FCStreamReader.check_buffer_size
      rw [if_pos hp, if_pos hlt]
      simp [Protocol.try_resume, hsup]
    · intro hp hgt
      unfold FCStreamReader.check_buffer_size
      rw [if_neg (by rw [hp]; simp), if_pos hgt]
      simp [Protocol.try_pause, hsup]
  · intro s d sz hsup hallow hpause hw hsz
    refine ⟨({ s with
               inner := { s.inner with
                          size := s.inner.size + sz,
                          buffer := s.inner.buffer ++ [(d, sz)] },
               protocol := s.protocol.try_pause } : FCDataQueue),
      none, ?_, ?_, ?_, ?_⟩
    · unfold FCDataQueue.feed_data
      simp only [DataQueue.feed_data, hw, Bool.false_eq_true, if_false]
      rw [if_pos ⟨hallow, hpause, trivial, by exact hsz⟩]
    · simp [Protocol.try_pause, hsup]
    · simp [Protocol.try_pause, hsup]
    · simp [Protocol.try_pause, hsup]
  · intro s d sz rest hsup hpause hb hsz
    have hstep : s.inner.read = .item d
        { s.inner with buffer := rest, size := s.inner.size - sz } := by
      unfold DataQueue.read
      rw [if_neg (by rw [hb]; simp), hb]
    have hchk : FCDataQueue.check_size
        { s with inner := { s.inner with
                            buffer := rest,
                            size := s.inner.size - sz } }
        = { s with
            inner := { s.inner with
                       buffer := rest,
                       size := s.inner.size - sz },
            protocol := s.protocol.try_resume } := by
      unfold FCDataQueue.check_size
      rw [if_pos hpause, if_pos (by exact hsz)]
    refine ⟨({ s with
               inner := { s.inner with
                          buffer := rest,
                          size := s.inner.size - sz },
               protocol := s.protocol.try_resume } : FCDataQueue),
      ?_, ?_, ?_, ?_⟩
    · unfold FCDataQueue.read
      simp only [hstep]
      rw [hchk]
    · simp [Protocol.try_resume, hsup]
    · simp [Protocol.try_resume, hsup]
    · simp [Protocol.try_resume, hsup]
/-- Witness for C2: with `limit*2 = 4`, feeding 5 bytes to an empty
pause-enabled reader issues exactly one `pause_reading()`; draining a
paused reader below the threshold issues exactly one `resume_reading()`. -/
theorem C2_flow_control_pause_resume_witness :
    (∃ (s' : FCStreamReader) (ev : Option WakeEvent),
      FCStreamReader.feed_data
        ⟨⟨16, [], 0, 0, false, false, false, none, 0⟩, ⟨false, true, 0, 0⟩, 4, true⟩
        [1, 2, 3, 4, 5] = .ok (s', ev)
      ∧ s'.protocol.pause_calls = 0 + 1
      ∧ s'.protocol.resume_calls = 0
      ∧ s'.protocol.reading_paused = true)
    ∧ (∃ s' : FCStreamReader,
      FCStreamReader.readany
        ⟨⟨16, [[1, 2]], 2, 0, true, false, false, none, 2⟩, ⟨true, true, 0, 0⟩, 4, true⟩
        = .done (StreamReader.contents
            ⟨16, [[1, 2]], 2, 0, true, false, false, none, 2⟩) s'
      ∧ s'.protocol.resume_calls = 0 + 1
      ∧ s'.protocol.pause_calls = 0
      ∧ s'.protocol.reading_paused = false) := by
  have hwf : StreamReader.WF ⟨16, [[1, 2]], 2, 0, true, false, false, none, 2⟩ := by
    refine ⟨by decide, by decide, by decide, ?_⟩
    intro c r h
    injection h with h1 h2
    rw [← h1]
    decide
  have happ := C2_flow_control_pause_resume
  exact ⟨happ.1 ⟨⟨16, [], 0, 0, false, false, false, none, 0⟩, ⟨false, true, 0, 0⟩, 4, true⟩
      [1, 2, 3, 4, 5] rfl rfl rfl rfl rfl (by decide) (by decide),
    happ.2.1 ⟨⟨16, [[1, 2]], 2, 0, true, false, false, none, 2⟩, ⟨true, true, 0, 0⟩, 4, true⟩
      rfl rfl hwf rfl (by decide) (by decide)⟩
theorem hasNL_append (a b : Bytes) :
    hasNL (a ++ b) = (hasNL a || hasNL b) := by
  induction a with
  | nil => simp [hasNL]
  | cons x xs ih =>
    simp only [List.cons_append, hasNL, List.append_eq, ih, Bool.or_assoc]

theorem findNL_none_hasNL {a : Bytes} (h : findNL a = none) :
    hasNL a = false := by
  induction a with
  | nil => rfl
  | cons x xs ih =>
    unfold findNL at h
    by_cases hx : x = NL
    · rw [if_pos hx] at h
      cases h
    · rw [if_neg hx] at h
      simp [hasNL, hx, ih (Option.map_eq_none'.mp h)]

theorem findNL_none_lineLen {a : Bytes} (h : findNL a = none) :
    lineLen a = a.length := by
  induction a with
  | nil => rfl
  | cons x xs ih =>
    unfold findNL at h
    by_cases hx : x = NL
    · rw [if_pos hx] at h
      cases h
    · rw [if_neg hx] at h
      simp [lineLen, hx, ih (Option.map_eq_none'.mp h)]

theorem lineLen_append_right {a : Bytes} (b : Bytes) (h : findNL a = none) :
    lineLen (a ++ b) = a.length + lineLen b := by
  induction a with
  | nil => simp [lineLen]
  | cons x xs ih =>
    unfold findNL at h
    by_cases hx : x = NL
    · rw [if_pos hx] at h
      cases h
    · rw [if_neg hx] at h
      have := ih (Option.map_eq_none'.mp h)
      simp only [List.cons_append, lineLen, hx, if_false, List.length_cons,
        List.append_eq, this, if_neg]
      omega

theorem findNL_some_lt {a : Bytes} {q : Nat} (h : findNL a = some q) :
    q < a.length := by
  induction a generalizing q with
  | nil => cases h
  | cons x xs ih =>
    unfold findNL at h
    by_cases hx : x = NL
    · rw [if_pos hx] at h
      injection h with h
      rw [← h]
      simp
    · rw [if_neg hx] at h
      obtain ⟨q', hq', hq⟩ := Option.map_eq_some'.mp h
      have := ih hq'
      simp only [List.length_cons]
      omega

theorem lineLen_append_left {a : Bytes} {q : Nat} (b : Bytes)
    (h : findNL a = some q) :
    lineLen (a ++ b) = q + 1 := by
  induction a generalizing q with
  | nil => cases h
  | cons x xs ih =>
    unfold findNL at h
    by_cases hx : x = NL
    · rw [if_pos hx] at h
      injection h with h
      simp [lineLen, hx, ← h]
    · rw [if_neg hx] at h
      obtain ⟨q', hq', hq⟩ := Option.map_eq_some'.mp h
      have := ih hq'
      simp only [List.cons_append, lineLen, hx, if_false, List.append_eq,
        this, if_neg]
      omega

theorem lineLen_of_findNL_some {a : Bytes} {q : Nat}
    (h : findNL a = some q) : lineLen a = q + 1 := by
  have := lineLen_append_left ([] : Bytes) h
  simpa using this

theorem hasNL_of_findNL_some {a : Bytes} {q : Nat}
    (h : findNL a = some q) : hasNL a = true := by
  induction a generalizing q with
  | nil => cases h
  | cons x xs ih =>
    unfold findNL at h
    by_cases hx : x = NL
    · simp [hasNL, hx]
    · rw [if_neg hx] at h
      obtain ⟨q', hq', hq⟩ := Option.map_eq_some'.mp h
      simp [hasNL, hx, ih hq']

theorem take_lineLen_ends_NL {cs : Bytes} (h : hasNL cs = true) :
    ∃ pre, cs.take (lineLen cs) = pre ++ [NL] ∧ hasNL pre = false := by
  induction cs with
  | nil => cases h
  | cons x xs ih =>
    by_cases hx : x = NL
    · refine ⟨[], ?_, rfl⟩
      simp [lineLen, hx]
    · have hxs : hasNL xs = true := by
        simpa [hasNL, hx] using h
      obtain ⟨pre, hpre, hprenl⟩ := ih hxs
      refine ⟨x :: pre, ?_, ?_⟩
      · simp [lineLen, hx, List.take_succ_cons, hpre]
      · simp [hasNL, hx, hprenl]

theorem take_lineLen_no_NL {cs : Bytes} (h : hasNL cs = false) :
    cs.take (lineLen cs) = cs := by
  induction cs with
  | nil => rfl
  | cons x xs ih =>
    have hx : ¬ (x = NL) := by
      intro hx
      rw [hasNL, hx] at h
      simp at h
    have hxs : hasNL xs = false := by
      simpa [hasNL, hx] using h
    simp [lineLen, hx, List.take_succ_cons, ih hxs]
theorem readline_inner_false (fuel : Nat) (s : StreamReader)
    (acc : List Bytes) (size : Nat) :
    StreamReader.readline_inner fuel s acc size false
      = .ok (s, acc, size, false) := by
  cases fuel with
  | zero => rfl
  | succ m =>
    unfold StreamReader.readline_inner
    cases hb : s.buffer with
    | nil => rfl
    | cons f r => simp
theorem readline_inner_spec (fuel : Nat) :
    ∀ (s : StreamReader) (acc : List Bytes) (size : Nat),
    s.buffer.length < fuel → s.WF → size ≤ s.limit →
    (size + lineLen s.contents > s.limit →
      ∃ serr, StreamReader.readline_inner fuel s acc size true = .error serr)
    ∧ (size + lineLen s.contents ≤ s.limit →
      ∃ s' lineRev, StreamReader.readline_inner fuel s acc size true
          = .ok (s', lineRev, size + lineLen s.contents, !hasNL s.contents)
        ∧ lineRev.reverse.flatten
            = acc.reverse.flatten ++ s.contents.take (lineLen s.contents)
        ∧ s'.contents = s.contents.drop (lineLen s.contents)
        ∧ s'.WF
        ∧ SameMeta s s') := by
  induction fuel with
  | zero => intro s acc size h _ _; omega
  | succ fuel ih =>
    intro s acc size hlen hwf hsize
    obtain ⟨hsz, hne, hoff0, hoffc⟩ := hwf
    match hb : s.buffer with
    | [] =>
      have hcont : s.contents = [] := by simp [StreamReader.contents, hb]
      have hstep : StreamReader.readline_inner (fuel + 1) s acc size true
          = .ok (s, acc, size, true) := by
        unfold StreamReader.readline_inner
        rw [hb]
      rw [hcont]
      constructor
      · intro h
        simp only [lineLen] at h
        omega
      · intro _
        refine ⟨s, acc, ?_, by simp, by simp [hcont], ⟨hsz, hne, hoff0, hoffc⟩,
          rfl, rfl, rfl, rfl, rfl, rfl⟩
        rw [hstep]
        simp [lineLen, hasNL]
    | f :: r =>
      have hofflt : s.buffer_offset < f.length := hoffc f r hb
      have hcont : s.contents = f.drop s.buffer_offset ++ r.flatten := by
        simp only [StreamReader.contents, hb, List.flatten_cons]
        exact List.drop_append_of_le_length (le_of_lt hofflt)
      have hdlen : (f.drop s.buffer_offset).length
          = f.length - s.buffer_offset := List.length_drop ..
      cases hfind : findNL (f.drop s.buffer_offset) with
      | none =>
        -- no newline in the head chunk: it is consumed whole
        have hchunk := read_nowait_chunk_pop s f r (-1) hb (Or.inl rfl)
        set s1 : StreamReader :=
          { s with buffer := r, buffer_offset := 0,
                   buffer_size := s.buffer_size - (f.drop s.buffer_offset).length }
          with hs1
        have hstep : StreamReader.readline_inner (fuel + 1) s acc size true
            = (if size + (f.drop s.buffer_offset).length > s.limit
               then .error s1
               else StreamReader.readline_inner fuel s1
                 ((f.drop s.buffer_offset) :: acc)
                 (size + (f.drop s.buffer_offset).length) true) := by
          simp only [StreamReader.readline_inner]
          rw [hb]
          simp only [Bool.true_eq_false, if_false, reduceIte, hfind, ne_eq,
            not_true_eq_false, hchunk]
        have hll : lineLen s.contents
            = (f.drop s.buffer_offset).length + lineLen r.flatten := by
          rw [hcont]
          exact lineLen_append_right r.flatten hfind
        have hnl : hasNL s.contents = (false || hasNL r.flatten) := by
          rw [hcont, hasNL_append, findNL_none_hasNL hfind]
        by_cases herr : size + (f.drop s.buffer_offset).length > s.limit
        · constructor
          · intro _
            refine ⟨s1, ?_⟩
            rw [hstep, if_pos herr]
          · intro h
            rw [hll] at h
            omega
        · have hwf1 : s1.WF := by
            refine ⟨?_, ?_, ?_, ?_⟩
            · simp only [hs1, List.length_drop]
              rw [hb] at hsz
              simp only [List.flatten_cons, List.length_append] at hsz
              have : s.buffer_offset ≤ f.length := le_of_lt hofflt
              push_cast [this]
              omega
            · intro c hc
              exact hne c (by rw [hb]; exact List.mem_cons_of_mem _ (by simpa [hs1] using hc))
            · intro _; simp [hs1]
            · intro c r' hr
              simp only [hs1] at hr ⊢
              have : c ≠ [] := hne c (by rw [hb, hr]; simp)
              simpa using List.length_pos.mpr this
          have hcont1 : s1.contents = r.flatten := by
            simp [StreamReader.contents, hs1]
          have hlen1 : s1.buffer.length < fuel := by
            have : s.buffer.length = r.length + 1 := by rw [hb]; rfl
            simp only [hs1]
            omega
          obtain ⟨ihErr, ihOk⟩ := ih s1 ((f.drop s.buffer_offset) :: acc)
            (size + (f.drop s.buffer_offset).length) hlen1 hwf1
            (by simp only [hs1]; omega)
          constructor
          · intro h
            rw [hll] at h
            obtain ⟨serr, hserr⟩ := ihErr (by rw [hcont1]; simp only [hs1]; omega)
            refine ⟨serr, ?_⟩
            rw [hstep, if_neg herr]
            exact hserr
          · intro h
            rw [hll] at h
            obtain ⟨s', lineRev, hok, hflat, hcont', hwf', hmeta'⟩ :=
              ihOk (by rw [hcont1]; simp only [hs1]; omega)
            refine ⟨s', lineRev, ?_, ?_, ?_, hwf', ?_⟩
            · rw [hstep, if_neg herr, hok, hcont1, hll, hnl]
              simp [Nat.add_assoc]
            · rw [hflat, hcont1, hll, hcont]
              simp only [List.reverse_cons, List.flatten_append,
                List.flatten_cons, List.flatten_nil, List.append_nil]
              rw [List.take_append]
              simp [List.append_assoc]
            · rw [hcont', hcont1, hll, hcont, List.drop_append]
            · obtain ⟨m1, m2, m3, m4, m5, m6⟩ := hmeta'
              exact ⟨m1, m2, m3, m4, m5, m6⟩
      | some q =>
        -- first newline of the stream sits in the head chunk remainder at q
        have hq : q < (f.drop s.buffer_offset).length := findNL_some_lt hfind
        have hll : lineLen s.contents = q + 1 := by
          rw [hcont]
          exact lineLen_append_left r.flatten hfind
        have hnl : hasNL s.contents = true := by
          rw [hcont, hasNL_append, hasNL_of_findNL_some hfind]
          rfl
        have hnexpr : ((q + s.buffer_offset + 1 : Nat) : Int)
            - (s.buffer_offset : Int) = (q : Int) + 1 := by
          push_cast
          ring
        by_cases hmid : q + 1 < (f.drop s.buffer_offset).length
        · -- the newline is strictly inside the remainder: only the offset moves
          have htn : ((q : Int) + 1).toNat = q + 1 := by omega
          have hchunk := read_nowait_chunk_take s f r ((q : Int) + 1) hb
            (by omega) (by rw [hdlen] at hmid; omega)
          rw [htn] at hchunk
          set s1 : StreamReader :=
            { s with buffer_offset := s.buffer_offset + (q + 1),
                     buffer_size := s.buffer_size -
                       ((f.drop s.buffer_offset).take (q + 1)).length }
            with hs1
          have hdatalen : ((f.drop s.buffer_offset).take (q + 1)).length
              = q + 1 := by
            simp only [List.length_take]
            omega
          have hstep : StreamReader.readline_inner (fuel + 1) s acc size true
              = (if size + ((f.drop s.buffer_offset).take (q + 1)).length > s.limit
                 then .error s1
                 else StreamReader.readline_inner fuel s1
                   (((f.drop s.buffer_offset).take (q + 1)) :: acc)
                   (size + ((f.drop s.buffer_offset).take (q + 1)).length) false) := by
            simp only [StreamReader.readline_inner]
            rw [hb]
            simp only [Bool.true_eq_false, if_false, reduceIte, hfind,
              Nat.succ_ne_zero, ne_eq, not_false_eq_true, if_true, hnexpr,
              htn, hchunk]
          constructor
          · intro h
            rw [hll] at h
            refine ⟨s1, ?_⟩
            rw [hstep, if_pos (by omega)]
          · intro h
            rw [hll] at h
            have hfalse := readline_inner_false fuel s1
              (((f.drop s.buffer_offset).take (q + 1)) :: acc)
              (size + ((f.drop s.buffer_offset).take (q + 1)).length)
            refine ⟨s1, ((f.drop s.buffer_offset).take (q + 1)) :: acc,
              ?_, ?_, ?_, ?_, ?_⟩
            · rw [hstep, if_neg (by omega), hfalse, hll, hnl, hdatalen]
              simp
            · have hll2 : lineLen (f.drop s.buffer_offset ++ r.flatten)
                  = q + 1 := lineLen_append_left r.flatten hfind
              simp only [List.reverse_cons, List.flatten_append,
                List.flatten_cons, List.flatten_nil, List.append_nil, hcont,
                hll2]
              rw [List.take_append_of_le_length (by omega)]
            · show s.buffer.flatten.drop (s.buffer_offset + (q + 1))
                = s.contents.drop (lineLen s.contents)
              rw [hll]
              simp only [StreamReader.contents, List.drop_drop]
            · refine ⟨?_, ?_, ?_, ?_⟩
              · show s.buffer_size
                  - (((f.drop s.buffer_offset).take (q + 1)).length : Int)
                  = (s.buffer.flatten.length : Int)
                    - ((s.buffer_offset + (q + 1) : Nat) : Int)
                rw [hdatalen]
                push_cast
                omega
              · show ∀ c ∈ s.buffer, c ≠ []
                exact hne
              · intro hcontra
                have : (f :: r : List Bytes) = [] := hb.symm.trans hcontra
                exact absurd this (by simp)
              · intro c r' hr
                have hfr : (f :: r : List Bytes) = c :: r' := hb.symm.trans hr
                have hc : f = c := by injection hfr
                show s.buffer_offset + (q + 1) < c.length
                rw [← hc]
                rw [hdlen] at hmid
                omega
            · exact ⟨rfl, rfl, rfl, rfl, rfl, rfl⟩
        · -- the newline ends the head chunk remainder: the chunk is popped
          have hqe : q + 1 = (f.drop s.buffer_offset).length := by omega
          have hchunk := read_nowait_chunk_pop s f r ((q : Int) + 1) hb
            (Or.inr (by rw [hdlen] at hqe; omega))
          set s1 : StreamReader :=
            { s with buffer := r, buffer_offset := 0,
                     buffer_size := s.buffer_size - (f.drop s.buffer_offset).length }
            with hs1
          have hstep : StreamReader.readline_inner (fuel + 1) s acc size true
              = (if size + (f.drop s.buffer_offset).length > s.limit
                 then .error s1
                 else StreamReader.readline_inner fuel s1
                   ((f.drop s.buffer_offset) :: acc)
                   (size + (f.drop s.buffer_offset).length) false) := by
            simp only [StreamReader.readline_inner]
            rw [hb]
            simp only [Bool.true_eq_false, if_false, reduceIte, hfind,
              Nat.succ_ne_zero, ne_eq, not_false_eq_true, if_true, hnexpr,
              hchunk]
          have hwf1 : s1.WF := by
            refine ⟨?_, ?_, ?_, ?_⟩
            · simp only [hs1, List.length_drop]
              rw [hb] at hsz
              simp only [List.flatten_cons, List.length_append] at hsz
              have : s.buffer_offset ≤ f.length := le_of_lt hofflt
              push_cast [this]
              omega
            · intro c hc
              exact hne c (by rw [hb]; exact List.mem_cons_of_mem _ (by simpa [hs1] using hc))
            · intro _; simp [hs1]
            · intro c r' hr
              simp only [hs1] at hr ⊢
              have : c ≠ [] := hne c (by rw [hb, hr]; simp)
              simpa using List.length_pos.mpr this
          have hcont1 : s1.contents = r.flatten := by
            simp [StreamReader.contents, hs1]
          constructor
          · intro h
            rw [hll] at h
            refine ⟨s1, ?_⟩
            rw [hstep, if_pos (by omega)]
          · intro h
            rw [hll] at h
            have hfalse := readline_inner_false fuel s1
              ((f.drop s.buffer_offset) :: acc)
              (size + (f.drop s.buffer_offset).length)
            refine ⟨s1, (f.drop s.buffer_offset) :: acc, ?_, ?_, ?_, hwf1, ?_⟩
            · rw [hstep, if_neg (by omega), hfalse, hll, hnl, ← hqe]
              simp
            · have hll2 : lineLen (f.drop s.buffer_offset ++ r.flatten)
                  = q + 1 := lineLen_append_left r.flatten hfind
              simp only [List.reverse_cons, List.flatten_append,
                List.flatten_cons, List.flatten_nil, List.append_nil, hcont,
                hll2]
              rw [List.take_append_of_le_length (by omega),
                List.take_of_length_le (by omega)]
            · rw [hcont1, hll, hcont,
                List.drop_append_of_le_length (by omega),
                List.drop_of_length_le (by omega), List.nil_append]
            · exact ⟨rfl, rfl, rfl, rfl, rfl, rfl⟩
/-- C6: on a well-formed reader at EOF with no stored exception,
`readline()` returns the first buffered line up to and including its
trailing newline (the returned line is some newline-free prefix followed
by the newline byte); a final unterminated line at EOF is returned whole,
without a newline; and `readline` fails with the
`ValueError('Line is too long')` exactly when the first line — through its
newline, or the whole remainder when no newline occurs — is longer than
the configured limit. -/
theorem C6_readline_lines (s : StreamReader) (hwf : s.WF)
    (hexc : s.exception = none) (heof : s.eof = true) :
    (lineLen s.contents ≤ s.limit →
      ∃ s', s.readline = .done (s.contents.take (lineLen s.contents)) s'
        ∧ s'.contents = s.contents.drop (lineLen s.contents)
        ∧ (hasNL s.contents = true →
            ∃ pre, s.contents.take (lineLen s.contents) = pre ++ [NL]
              ∧ hasNL pre = false)
        ∧ (hasNL s.contents = false →
            s.contents.take (lineLen s.contents) = s.contents
              ∧ hasNL (s.contents.take (lineLen s.contents)) = false))
    ∧ (lineLen s.contents > s.limit →
        ∃ serr, s.readline = .lineTooLong serr) := by
  obtain ⟨ihErr, ihOk⟩ := readline_inner_spec (s.buffer.length + 1) s [] 0
    (by omega) hwf (by omega)
  constructor
  · intro h
    obtain ⟨s', lineRev, hok, hflat, hcont', hwf', hmeta'⟩ := ihOk (by omega)
    obtain ⟨m1, m2, m3, m4, m5, m6⟩ := hmeta'
    refine ⟨s', ?_, hcont', ?_, ?_⟩
    · simp only [StreamReader.readline, hexc, hok, m2, heof, if_true]
      rw [hflat]
      simp
    · intro hnl
      exact take_lineLen_ends_NL hnl
    · intro hnl
      exact ⟨take_lineLen_no_NL hnl,
        by rw [take_lineLen_no_NL hnl]; exact hnl⟩
  · intro h
    obtain ⟨serr, hserr⟩ := ihErr (by omega)
    refine ⟨serr, ?_⟩
    simp only [StreamReader.readline, hexc, hserr]

/-- Witness for C6: feeding `"hi\nw"` (bytes `[104, 105, 10, 119]`) and
EOF, `readline()` returns `"hi\n"` and leaves `"w"` buffered. -/
theorem C6_readline_lines_witness :
    (StreamReader.WF ⟨16, [[104, 105, 10, 119]], 4, 0, true, false, false, none, 4⟩)
    ∧ lineLen (StreamReader.contents
        ⟨16, [[104, 105, 10, 119]], 4, 0, true, false, false, none, 4⟩) ≤ 16
    ∧ ∃ s', StreamReader.readline
          ⟨16, [[104, 105, 10, 119]], 4, 0, true, false, false, none, 4⟩
          = .done [104, 105, 10] s'
        ∧ s'.contents = [119] := by
  have hwf : StreamReader.WF
      ⟨16, [[104, 105, 10, 119]], 4, 0, true, false, false, none, 4⟩ := by
    refine ⟨by decide, by decide, by decide, ?_⟩
    intro c r h
    injection h with h1 h2
    rw [← h1]
    decide
  have happ := C6_readline_lines
    ⟨16, [[104, 105, 10, 119]], 4, 0, true, false, false, none, 4⟩ hwf rfl rfl
  obtain ⟨s', h1, h2, h3, h4⟩ := happ.1 (by decide)
  rw [show (StreamReader.contents
      ⟨16, [[104, 105, 10, 119]], 4, 0, true, false, false, none, 4⟩).take
      (lineLen (StreamReader.contents
        ⟨16, [[104, 105, 10, 119]], 4, 0, true, false, false, none, 4⟩))
      = [104, 105, 10] from by decide] at h1
  refine ⟨hwf, by decide, s', h1, ?_⟩
  rw [h2]
  decide

end Aiohttp
